import Mathlib

/-!
Verification development for the `proc` package of the hyperdrive repository
(`proc/proc.go`): a shallow embedding of the Byzantine fault tolerant
consensus Process together with proofs about its event handlers.

The Process from the source is a deterministic state machine whose
collaborators (Scheduler, Proposer, Validator, Timer, Broadcaster,
Committer, Catcher) are injected.  Pure input collaborators (Scheduler,
Proposer, Validator) are embedded as function-valued fields of the state;
output collaborators (Timer, Broadcaster, Committer, Catcher) are embedded
by returning the list of calls made to them, in call order, as `Output`
values.

Go maps are embedded as total functions with a default: `map[Round]Propose`
becomes `Round → Option Propose`, the per-round voter maps become
`Round → List (Pid × msg)` whose keys are kept distinct by insertion (`len`
of an absent Go map is 0, matching the empty list), and the `OnceFlags`
bitmask map becomes `Round → Nat` with default 0.

The bounded mutual recursion between `StartRound` and the `try*` condition
methods (Go terminates because steps only advance and once-flags latch) is
embedded with a `fuel` parameter; every entry point supplies `procFuel`,
which strictly dominates the static depth of the source call graph, and all
universally quantified lemmas are proved for every fuel so the bound is
never load-bearing.
-/

/-- Modelled from the spec: `Height` is a monotonic counter
(`int64` in the source's sibling `block` package). -/
abbrev Height := Int

/-- Modelled from the spec: `Round` is a counter with sentinel
`InvalidRound = -1`. -/
abbrev Round := Int

/-- Modelled from the spec: `Pid` is an opaque participant identity with
decidable equality (`Pid.Equal` in the source). -/
abbrev Pid := Nat

/-- Modelled from the spec: `Value` is an opaque application payload with an
equality relation (`Value.Equal` in the source) and a distinguished
`NilValue`. -/
abbrev Value := Nat

/-- Modelled from the spec: the distinguished nil `Value`. -/
def NilValue : Value := 0

/-- Sentinel round, `InvalidRound = Round(-1)` in the source. -/
def InvalidRound : Round := -1

/-- Modelled from the spec: `currentStep ∈ {Proposing, Prevoting,
Precommitting}`; the source orders the three steps
(`p.CurrentStep < Prevoting`), which we expose through `Step.toNat`. -/
inductive Step where
  | proposing
  | prevoting
  | precommitting
deriving DecidableEq, Repr

/-- Order of the steps, Proposing < Prevoting < Precommitting. -/
def Step.toNat : Step → Nat
  | .proposing => 0
  | .prevoting => 1
  | .precommitting => 2

/-- Modelled from the spec: a `Propose` message
`{height, round, from, value, validRound}`.  The `from` field is named
`sender` because `from` is reserved in Lean. -/
structure Propose where
  height : Height
  round : Round
  sender : Pid
  value : Value
  validRound : Round
deriving DecidableEq, Repr

/-- Modelled from the spec: a `Prevote` message `{height, round, from, value}`. -/
structure Prevote where
  height : Height
  round : Round
  sender : Pid
  value : Value
deriving DecidableEq, Repr

/-- Modelled from the spec: a `Precommit` message `{height, round, from, value}`. -/
structure Precommit where
  height : Height
  round : Round
  sender : Pid
  value : Value
deriving DecidableEq, Repr

/-- A call to one of the output collaborators (Broadcaster, Timer,
Committer, Catcher), recorded in call order. -/
inductive Output where
  | broadcastPropose (height : Height) (round : Round) (value : Value) (validRound : Round)
  | broadcastPrevote (height : Height) (round : Round) (value : Value)
  | broadcastPrecommit (height : Height) (round : Round) (value : Value)
  | timeoutPropose (height : Height) (round : Round)
  | timeoutPrevote (height : Height) (round : Round)
  | timeoutPrecommit (height : Height) (round : Round)
  | commit (height : Height) (value : Value)
  | catchDoublePropose (new old : Propose)
  | catchDoublePrevote (new old : Prevote)
  | catchDoublePrecommit (new old : Precommit)
deriving DecidableEq, Repr

/-- The Process state from `proc.go`, with the pure input collaborators
(`scheduler.Schedule`, `proposer.Propose`, `validator.Valid`) embedded as
function fields and the inner `State` fields inlined (the proc `State`
holding `CurrentHeight .. ValidRound` is modelled from the spec, §3). -/
structure Process where
  schedule : Height → Round → Pid
  proposer : Height → Round → Value
  validator : Value → Bool
  ProposeLogs : Round → Option Propose
  PrevoteLogs : Round → List (Pid × Prevote)
  PrecommitLogs : Round → List (Pid × Precommit)
  F : Nat
  OnceFlags : Round → Nat
  Whoami : Pid
  CurrentHeight : Height
  CurrentRound : Round
  CurrentStep : Step
  LockedValue : Value
  LockedRound : Round
  ValidValue : Value
  ValidRound : Round

/-- `OnceFlagTimeoutPrecommitUponSufficientPrecommits = OnceFlag(1)`. -/
def OnceFlagTimeoutPrecommitUponSufficientPrecommits : Nat := 1

/-- `OnceFlagTimeoutPrevoteUponSufficientPrevotes = OnceFlag(2)`. -/
def OnceFlagTimeoutPrevoteUponSufficientPrevotes : Nat := 2

/-- `OnceFlagPrecommitUponSufficientPrevotes = OnceFlag(4)`. -/
def OnceFlagPrecommitUponSufficientPrevotes : Nat := 4

/-- `checkOnceFlag` returns true if the OnceFlag has already been set for
the given Round (`p.OnceFlags[round]&flag == flag`). -/
def Process.checkOnceFlag (p : Process) (round : Round) (flag : Nat) : Bool :=
  Nat.land (p.OnceFlags round) flag == flag

/-- `setOnceFlag` sets the OnceFlag for the given Round
(`p.OnceFlags[round] |= flag`). -/
def Process.setOnceFlag (p : Process) (round : Round) (flag : Nat) : Process :=
  { p with OnceFlags := fun r => if r = round then Nat.lor (p.OnceFlags r) flag else p.OnceFlags r }

/-- Modelled from the spec: the proc `State.Reset` resets the lock/valid
fields to `(Nil, InvalidRound)` (spec §3 Lifecycle and P7). -/
def Process.Reset (p : Process) : Process :=
  { p with LockedValue := NilValue, LockedRound := InvalidRound,
           ValidValue := NilValue, ValidRound := InvalidRound }

/-- `insertPropose` validates a Propose and checks for duplicates.  Returns
the updated Process, whether the Propose was accepted and inserted, and the
Catcher calls made. -/
def Process.insertPropose (p : Process) (propose : Propose) :
    Process × Bool × List Output :=
  if propose.height ≠ p.CurrentHeight then (p, false, [])
  else
    match p.ProposeLogs propose.round with
    | some existingPropose =>
      if propose ≠ existingPropose then
        (p, false, [Output.catchDoublePropose propose existingPropose])
      else (p, false, [])
    | none =>
      if p.schedule propose.height propose.round ≠ propose.sender then (p, false, [])
      else if ¬ p.validator propose.value then (p, false, [])
      else
        ({ p with ProposeLogs :=
             fun r => if r = propose.round then some propose else p.ProposeLogs r },
         true, [])

/-- `insertPrevote` validates a Prevote and checks for duplicates.  Returns
the updated Process, whether the Prevote was accepted and inserted, and the
Catcher calls made. -/
def Process.insertPrevote (p : Process) (prevote : Prevote) :
    Process × Bool × List Output :=
  if prevote.height ≠ p.CurrentHeight then (p, false, [])
  else
    match (p.PrevoteLogs prevote.round).lookup prevote.sender with
    | some existingPrevote =>
      if prevote ≠ existingPrevote then
        (p, false, [Output.catchDoublePrevote prevote existingPrevote])
      else (p, false, [])
    | none =>
      ({ p with PrevoteLogs :=
           fun r => if r = prevote.round then (prevote.sender, prevote) :: p.PrevoteLogs r
                    else p.PrevoteLogs r },
       true, [])

/-- `insertPrecommit` validates a Precommit and checks for duplicates.
Returns the updated Process, whether the Precommit was accepted and
inserted, and the Catcher calls made. -/
def Process.insertPrecommit (p : Process) (precommit : Precommit) :
    Process × Bool × List Output :=
  if precommit.height ≠ p.CurrentHeight then (p, false, [])
  else
    match (p.PrecommitLogs precommit.round).lookup precommit.sender with
    | some existingPrecommit =>
      if precommit ≠ existingPrecommit then
        (p, false, [Output.catchDoublePrecommit precommit existingPrecommit])
      else (p, false, [])
    | none =>
      ({ p with PrecommitLogs :=
           fun r => if r = precommit.round then (precommit.sender, precommit) :: p.PrecommitLogs r
                    else p.PrecommitLogs r },
       true, [])

/-- L34: `tryTimeoutPrevoteUponSufficientPrevotes`.  Note that, as in the
source, the once-flag is set whenever the step check passes, even when the
count check fails and no timeout is requested. -/
def Process.tryTimeoutPrevoteUponSufficientPrevotes (p : Process) : Process × List Output :=
  if p.checkOnceFlag p.CurrentRound OnceFlagTimeoutPrevoteUponSufficientPrevotes then (p, [])
  else if p.CurrentStep ≠ Step.prevoting then (p, [])
  else
    let out : List Output :=
      if (p.PrevoteLogs p.CurrentRound).length = 2 * p.F + 1 then
        [Output.timeoutPrevote p.CurrentHeight p.CurrentRound]
      else []
    (p.setOnceFlag p.CurrentRound OnceFlagTimeoutPrevoteUponSufficientPrevotes, out)

/-- L47: `tryTimeoutPrecommitUponSufficientPrecommits`; here the once-flag
is only set when the timeout is actually requested. -/
def Process.tryTimeoutPrecommitUponSufficientPrecommits (p : Process) : Process × List Output :=
  if p.checkOnceFlag p.CurrentRound OnceFlagTimeoutPrecommitUponSufficientPrecommits then (p, [])
  else if (p.PrecommitLogs p.CurrentRound).length = 2 * p.F + 1 then
    (p.setOnceFlag p.CurrentRound OnceFlagTimeoutPrecommitUponSufficientPrecommits,
     [Output.timeoutPrecommit p.CurrentHeight p.CurrentRound])
  else (p, [])

mutual

/-- L11: `StartRound` assigns the new round, resets the step to Proposing
and then runs `startRoundRest` (proposer check plus the deferred
re-evaluations). -/
def Process.StartRound (fuel : Nat) (p : Process) (round : Round) : Process × List Output :=
  match fuel with
  | 0 => (p, [])
  | fuel + 1 =>
    Process.startRoundRest fuel { p with CurrentRound := round, CurrentStep := Step.proposing }

/-- The body of `StartRound` after the round/step assignment: broadcast a
Propose if we are the scheduled proposer (using `ValidValue` when it is not
nil, the `Proposer` collaborator otherwise), request the propose timeout
otherwise; then the deferred condition re-evaluations run. -/
def Process.startRoundRest (fuel : Nat) (p : Process) : Process × List Output :=
  match fuel with
  | 0 => (p, [])
  | fuel + 1 =>
    let proposer := p.schedule p.CurrentHeight p.CurrentRound
    let body : List Output :=
      if p.Whoami ≠ proposer then
        [Output.timeoutPropose p.CurrentHeight p.CurrentRound]
      else
        let proposeValue :=
          if p.ValidValue = NilValue then p.proposer p.CurrentHeight p.CurrentRound
          else p.ValidValue
        [Output.broadcastPropose p.CurrentHeight p.CurrentRound proposeValue p.ValidRound]
    let r := Process.startRoundDefer fuel p
    (r.1, body ++ r.2)

/-- The re-evaluations deferred by `StartRound`, in source order. -/
def Process.startRoundDefer (fuel : Nat) (p : Process) : Process × List Output :=
  match fuel with
  | 0 => (p, [])
  | fuel + 1 =>
    let r1 := Process.tryPrecommitUponSufficientPrevotes fuel p
    let r2 := Process.tryPrecommitNilUponSufficientPrevotes fuel r1.1
    let r3 := Process.tryPrevoteUponPropose fuel r2.1
    let r4 := Process.tryPrevoteUponSufficientPrevotes fuel r3.1
    let r5 := (r4.1).tryTimeoutPrecommitUponSufficientPrecommits
    let r6 := (r5.1).tryTimeoutPrevoteUponSufficientPrevotes
    (r6.1, r1.2 ++ r2.2 ++ r3.2 ++ r4.2 ++ r5.2 ++ r6.2)

/-- L22: `tryPrevoteUponPropose`.  When in the Proposing step with a
Propose at the current round carrying no valid round, broadcast a Prevote
for its value when unlocked or locked on the same value, a nil Prevote
otherwise, and step to Prevoting. -/
def Process.tryPrevoteUponPropose (fuel : Nat) (p : Process) : Process × List Output :=
  match fuel with
  | 0 => (p, [])
  | fuel + 1 =>
    if p.CurrentStep ≠ Step.proposing then (p, [])
    else
      match p.ProposeLogs p.CurrentRound with
      | none => (p, [])
      | some propose =>
        if propose.validRound ≠ InvalidRound then (p, [])
        else
          let msg :=
            if p.LockedRound = InvalidRound ∨ p.LockedValue = propose.value then
              Output.broadcastPrevote p.CurrentHeight p.CurrentRound propose.value
            else
              Output.broadcastPrevote p.CurrentHeight p.CurrentRound NilValue
          let r := Process.stepToPrevoting fuel p
          (r.1, msg :: r.2)

/-- L28: `tryPrevoteUponSufficientPrevotes`.  When in the Proposing step
with a Propose at the current round carrying a valid round `vr` with
`0 ≤ vr < currentRound` backed by `2f+1` prevotes for its value at `vr`,
broadcast a Prevote for its value when `lockedRound ≤ vr` or locked on the
same value, a nil Prevote otherwise, and step to Prevoting. -/
def Process.tryPrevoteUponSufficientPrevotes (fuel : Nat) (p : Process) : Process × List Output :=
  match fuel with
  | 0 => (p, [])
  | fuel + 1 =>
    if p.CurrentStep ≠ Step.proposing then (p, [])
    else
      match p.ProposeLogs p.CurrentRound with
      | none => (p, [])
      | some propose =>
        if propose.validRound = InvalidRound ∨ propose.validRound ≥ p.CurrentRound then (p, [])
        else
          let prevotesInValidRound :=
            (p.PrevoteLogs propose.validRound).countP (fun e => e.2.value == propose.value)
          if prevotesInValidRound < 2 * p.F + 1 then (p, [])
          else
            let msg :=
              if p.LockedRound ≤ propose.validRound ∨ p.LockedValue = propose.value then
                Output.broadcastPrevote p.CurrentHeight p.CurrentRound propose.value
              else
                Output.broadcastPrevote p.CurrentHeight p.CurrentRound NilValue
            let r := Process.stepToPrevoting fuel p
            (r.1, msg :: r.2)

/-- L36: `tryPrecommitUponSufficientPrevotes`.  Once per round, when at
least in the Prevoting step with a Propose at the current round backed by
`2f+1` prevotes for its value: lock and broadcast a Precommit when exactly
in the Prevoting step, and set the valid value/round; the Go `defer` of the
prevote re-evaluations runs after the valid fields and the once-flag are
set. -/
def Process.tryPrecommitUponSufficientPrevotes (fuel : Nat) (p : Process) : Process × List Output :=
  match fuel with
  | 0 => (p, [])
  | fuel + 1 =>
    if p.checkOnceFlag p.CurrentRound OnceFlagPrecommitUponSufficientPrevotes then (p, [])
    else if p.CurrentStep.toNat < Step.prevoting.toNat then (p, [])
    else
      match p.ProposeLogs p.CurrentRound with
      | none => (p, [])
      | some propose =>
        let prevotesForValue :=
          (p.PrevoteLogs p.CurrentRound).countP (fun e => e.2.value == propose.value)
        if prevotesForValue < 2 * p.F + 1 then (p, [])
        else if p.CurrentStep = Step.prevoting then
          let p1 := { p with LockedValue := propose.value, LockedRound := p.CurrentRound }
          let msg := Output.broadcastPrecommit p1.CurrentHeight p1.CurrentRound propose.value
          let r1 := Process.stepToPrecommitting fuel p1
          let p2 := { r1.1 with ValidValue := propose.value, ValidRound := (r1.1).CurrentRound }
          let p3 := p2.setOnceFlag p2.CurrentRound OnceFlagPrecommitUponSufficientPrevotes
          let r2 := Process.tryPrevoteUponPropose fuel p3
          let r3 := Process.tryPrevoteUponSufficientPrevotes fuel r2.1
          (r3.1, msg :: (r1.2 ++ r2.2 ++ r3.2))
        else
          let p1 := { p with ValidValue := propose.value, ValidRound := p.CurrentRound }
          (p1.setOnceFlag p1.CurrentRound OnceFlagPrecommitUponSufficientPrevotes, [])

/-- L44: `tryPrecommitNilUponSufficientPrevotes`.  In the Prevoting step
with exactly `2f+1` nil prevotes at the current round, broadcast a nil
Precommit and step to Precommitting. -/
def Process.tryPrecommitNilUponSufficientPrevotes (fuel : Nat) (p : Process) : Process × List Output :=
  match fuel with
  | 0 => (p, [])
  | fuel + 1 =>
    if p.CurrentStep ≠ Step.prevoting then (p, [])
    else
      let prevotesForNil :=
        (p.PrevoteLogs p.CurrentRound).countP (fun e => e.2.value == NilValue)
      if prevotesForNil = 2 * p.F + 1 then
        let msg := Output.broadcastPrecommit p.CurrentHeight p.CurrentRound NilValue
        let r := Process.stepToPrecommitting fuel p
        (r.1, msg :: r.2)
      else (p, [])

/-- L49: `tryCommitUponSufficientPrecommits`.  When a Propose is stored at
`round` and exactly `2f+1` precommits at `round` carry its value: commit,
increment the height, clear all message logs and once-flags, reset the
lock/valid fields and start round 0. -/
def Process.tryCommitUponSufficientPrecommits (fuel : Nat) (p : Process) (round : Round) :
    Process × List Output :=
  match fuel with
  | 0 => (p, [])
  | fuel + 1 =>
    match p.ProposeLogs round with
    | none => (p, [])
    | some propose =>
      let precommitsForValue :=
        (p.PrecommitLogs round).countP (fun e => e.2.value == propose.value)
      if precommitsForValue = 2 * p.F + 1 then
        let p1 := { p with CurrentHeight := p.CurrentHeight + 1,
                           ProposeLogs := fun _ => none,
                           PrevoteLogs := fun _ => [],
                           PrecommitLogs := fun _ => [],
                           OnceFlags := fun _ => 0 }
        let p2 := p1.Reset
        let r := Process.StartRound fuel p2 0
        (r.1, Output.commit p.CurrentHeight propose.value :: r.2)
      else (p, [])

/-- L55: `trySkipToFutureRound`.  When the count of messages stored at a
round beyond the current one (a stored Propose counting as one, plus the
prevote and precommit senders) is exactly `f+1`, start that round. -/
def Process.trySkipToFutureRound (fuel : Nat) (p : Process) (round : Round) :
    Process × List Output :=
  match fuel with
  | 0 => (p, [])
  | fuel + 1 =>
    if round ≤ p.CurrentRound then (p, [])
    else
      let msgsInRound :=
        (if (p.ProposeLogs round).isSome then 1 else 0)
          + (p.PrevoteLogs round).length + (p.PrecommitLogs round).length
      if msgsInRound = p.F + 1 then Process.StartRound fuel p round
      else (p, [])

/-- `stepToPrevoting` puts the Process into the Prevoting step and tries
the conditions that might have opened. -/
def Process.stepToPrevoting (fuel : Nat) (p : Process) : Process × List Output :=
  match fuel with
  | 0 => (p, [])
  | fuel + 1 =>
    let p0 := { p with CurrentStep := Step.prevoting }
    let r1 := Process.tryPrecommitUponSufficientPrevotes fuel p0
    let r2 := Process.tryPrecommitNilUponSufficientPrevotes fuel r1.1
    let r3 := (r2.1).tryTimeoutPrevoteUponSufficientPrevotes
    (r3.1, r1.2 ++ r2.2 ++ r3.2)

/-- `stepToPrecommitting` puts the Process into the Precommitting step and
tries the conditions that might have opened. -/
def Process.stepToPrecommitting (fuel : Nat) (p : Process) : Process × List Output :=
  match fuel with
  | 0 => (p, [])
  | fuel + 1 =>
    let p0 := { p with CurrentStep := Step.precommitting }
    let r1 := Process.tryPrecommitUponSufficientPrevotes fuel p0
    (r1.1, r1.2)

end

/-- Fuel supplied at every entry point; the static call depth of the
source's mutual recursion is below 12. -/
def procFuel : Nat := 24

/-- `Process.Propose` from the source: ingest a Propose message and try all
conditions that could be opened by it. -/
def Process.deliverPropose (p : Process) (propose : Propose) : Process × List Output :=
  let ins := p.insertPropose propose
  if ins.2.1 then
    let p0 := ins.1
    let r1 := Process.trySkipToFutureRound procFuel p0 propose.round
    let r2 := Process.tryCommitUponSufficientPrecommits procFuel r1.1 propose.round
    let r3 := Process.tryPrecommitUponSufficientPrevotes procFuel r2.1
    let r4 := Process.tryPrevoteUponPropose procFuel r3.1
    let r5 := Process.tryPrevoteUponSufficientPrevotes procFuel r4.1
    (r5.1, ins.2.2 ++ r1.2 ++ r2.2 ++ r3.2 ++ r4.2 ++ r5.2)
  else (ins.1, ins.2.2)

/-- `Process.Prevote` from the source: ingest a Prevote message and try all
conditions that could be opened by it. -/
def Process.deliverPrevote (p : Process) (prevote : Prevote) : Process × List Output :=
  let ins := p.insertPrevote prevote
  if ins.2.1 then
    let p0 := ins.1
    let r1 := Process.trySkipToFutureRound procFuel p0 prevote.round
    let r2 := Process.tryPrecommitUponSufficientPrevotes procFuel r1.1
    let r3 := Process.tryPrecommitNilUponSufficientPrevotes procFuel r2.1
    let r4 := Process.tryPrevoteUponSufficientPrevotes procFuel r3.1
    let r5 := (r4.1).tryTimeoutPrevoteUponSufficientPrevotes
    (r5.1, ins.2.2 ++ r1.2 ++ r2.2 ++ r3.2 ++ r4.2 ++ r5.2)
  else (ins.1, ins.2.2)

/-- `Process.Precommit` from the source: ingest a Precommit message and try
all conditions that could be opened by it. -/
def Process.deliverPrecommit (p : Process) (precommit : Precommit) : Process × List Output :=
  let ins := p.insertPrecommit precommit
  if ins.2.1 then
    let p0 := ins.1
    let r1 := Process.trySkipToFutureRound procFuel p0 precommit.round
    let r2 := Process.tryCommitUponSufficientPrecommits procFuel r1.1 precommit.round
    let r3 := (r2.1).tryTimeoutPrecommitUponSufficientPrecommits
    (r3.1, ins.2.2 ++ r1.2 ++ r2.2 ++ r3.2)
  else (ins.1, ins.2.2)

/-- L57: `OnTimeoutPropose`. -/
def Process.OnTimeoutPropose (p : Process) (height : Height) (round : Round) :
    Process × List Output :=
  if height = p.CurrentHeight ∧ round = p.CurrentRound ∧ p.CurrentStep = Step.proposing then
    let msg := Output.broadcastPrevote p.CurrentHeight p.CurrentRound NilValue
    let r := Process.stepToPrevoting procFuel p
    (r.1, msg :: r.2)
  else (p, [])

/-- L61: `OnTimeoutPrevote`. -/
def Process.OnTimeoutPrevote (p : Process) (height : Height) (round : Round) :
    Process × List Output :=
  if height = p.CurrentHeight ∧ round = p.CurrentRound ∧ p.CurrentStep = Step.prevoting then
    let msg := Output.broadcastPrecommit p.CurrentHeight p.CurrentRound NilValue
    let r := Process.stepToPrecommitting procFuel p
    (r.1, msg :: r.2)
  else (p, [])

/-- L65: `OnTimeoutPrecommit`. -/
def Process.OnTimeoutPrecommit (p : Process) (height : Height) (round : Round) :
    Process × List Output :=
  if height = p.CurrentHeight ∧ round = p.CurrentRound then
    Process.StartRound procFuel p (round + 1)
  else (p, [])

/-- L10: `Start` begins with `StartRound(0)`. -/
def Process.Start (p : Process) : Process × List Output :=
  Process.StartRound procFuel p 0

/-! ## Frame relations and the master invariant over the condition methods -/

/-- Fields never written by the round-local condition methods
(`tryPrevoteUponPropose`, `tryPrevoteUponSufficientPrevotes`,
`tryPrecommitUponSufficientPrevotes`, `tryPrecommitNilUponSufficientPrevotes`,
`stepToPrevoting`, `stepToPrecommitting` and the two timeout conditions). -/
structure SameCore (p q : Process) : Prop where
  schedule : q.schedule = p.schedule
  proposer : q.proposer = p.proposer
  validator : q.validator = p.validator
  whoami : q.Whoami = p.Whoami
  f : q.F = p.F
  height : q.CurrentHeight = p.CurrentHeight
  round : q.CurrentRound = p.CurrentRound
  plogs : q.ProposeLogs = p.ProposeLogs
  pvlogs : q.PrevoteLogs = p.PrevoteLogs
  pclogs : q.PrecommitLogs = p.PrecommitLogs

theorem sameCore_refl (p : Process) : SameCore p p :=
  ⟨rfl, rfl, rfl, rfl, rfl, rfl, rfl, rfl, rfl, rfl⟩

theorem sameCore_trans {p q s : Process} (h1 : SameCore p q) (h2 : SameCore q s) :
    SameCore p s :=
  ⟨h2.schedule.trans h1.schedule, h2.proposer.trans h1.proposer,
   h2.validator.trans h1.validator, h2.whoami.trans h1.whoami, h2.f.trans h1.f,
   h2.height.trans h1.height, h2.round.trans h1.round, h2.plogs.trans h1.plogs,
   h2.pvlogs.trans h1.pvlogs, h2.pclogs.trans h1.pclogs⟩

/-- The step either did not move or is no longer Proposing (the condition
methods only ever advance the step). -/
def StepOK (p q : Process) : Prop :=
  q.CurrentStep = p.CurrentStep ∨ q.CurrentStep ≠ Step.proposing

theorem stepOK_refl (p : Process) : StepOK p p := Or.inl rfl

theorem stepOK_trans {p q s : Process} (h1 : StepOK p q) (h2 : StepOK q s) : StepOK p s := by
  rcases h2 with h2 | h2
  · rcases h1 with h1 | h1
    · exact Or.inl (h2.trans h1)
    · exact Or.inr (h2 ▸ h1)
  · exact Or.inr h2

theorem stepNe_trans {q s : Process} (h : q.CurrentStep ≠ Step.proposing)
    (h2 : StepOK q s) : s.CurrentStep ≠ Step.proposing := by
  rcases h2 with h2 | h2
  · exact h2 ▸ h
  · exact h2

/-- No `BroadcastPropose` call appears among the outputs. -/
def noBP (outs : List Output) : Prop :=
  ∀ o ∈ outs, ∀ h r v vr, o ≠ Output.broadcastPropose h r v vr

theorem noBP_nil : noBP [] := by intro o ho; cases ho

theorem noBP_append {a b : List Output} (ha : noBP a) (hb : noBP b) : noBP (a ++ b) := by
  intro o ho
  rcases List.mem_append.1 ho with ho | ho
  · exact ha o ho
  · exact hb o ho

theorem noBP_cons {o : Output} {outs : List Output}
    (ho : ∀ h r v vr, o ≠ Output.broadcastPropose h r v vr) (h : noBP outs) :
    noBP (o :: outs) := by
  intro x hx
  rcases List.mem_cons.1 hx with hx | hx
  · exact hx ▸ ho
  · exact h x hx

/-- Lock coherence, the invariant of claim C7: each of the lock and valid
pairs is the sentinel pair exactly when its value is nil. -/
def LockOK (p : Process) : Prop :=
  (p.LockedRound = InvalidRound ↔ p.LockedValue = NilValue) ∧
  (p.ValidRound = InvalidRound ↔ p.ValidValue = NilValue)

/-- Strengthened reachability invariant: lock coherence, a non-negative
current round, and only validator-approved Proposes in the propose log. -/
def InvL (p : Process) : Prop :=
  LockOK p ∧ 0 ≤ p.CurrentRound ∧
  ∀ r pr, p.ProposeLogs r = some pr → p.validator pr.value = true

/-- Master predicate proved for the round-local condition methods: they
keep the core fields, only advance the step, never broadcast a Propose, and
preserve the reachability invariant whenever the validator rejects the nil
value. -/
def Pred (p : Process) (res : Process × List Output) : Prop :=
  SameCore p res.1 ∧ StepOK p res.1 ∧ noBP res.2 ∧
  (p.validator NilValue = false → InvL p → InvL res.1)

theorem pred_id (p : Process) : Pred p (p, []) :=
  ⟨sameCore_refl p, stepOK_refl p, noBP_nil, fun _ h => h⟩

theorem pred_seq {p : Process} {res1 res2 : Process × List Output}
    (h1 : Pred p res1) (h2 : Pred res1.1 res2) : Pred p (res2.1, res1.2 ++ res2.2) := by
  obtain ⟨sc1, st1, nb1, iv1⟩ := h1
  obtain ⟨sc2, st2, nb2, iv2⟩ := h2
  refine ⟨sameCore_trans sc1 sc2, stepOK_trans st1 st2, noBP_append nb1 nb2, ?_⟩
  intro hnil hp
  exact iv2 (sc1.validator.symm ▸ hnil) (iv1 hnil hp)

theorem pred_mono_outs {p : Process} {q : Process} {o o' : List Output}
    (h : Pred p (q, o)) (hsub : ∀ x ∈ o', x ∈ o) : Pred p (q, o') :=
  ⟨h.1, h.2.1, fun x hx => h.2.2.1 x (hsub x hx), h.2.2.2⟩

theorem pred_tryTimeoutPrevote (p : Process) :
    Pred p p.tryTimeoutPrevoteUponSufficientPrevotes := by
  simp only [Process.tryTimeoutPrevoteUponSufficientPrevotes]
  split
  · exact pred_id p
  · split
    · exact pred_id p
    · refine ⟨⟨rfl, rfl, rfl, rfl, rfl, rfl, rfl, rfl, rfl, rfl⟩, Or.inl rfl, ?_, fun _ h => h⟩
      split
      · exact noBP_cons (fun h r v vr hc => Output.noConfusion hc) noBP_nil
      · exact noBP_nil

theorem pred_tryTimeoutPrecommit (p : Process) :
    Pred p p.tryTimeoutPrecommitUponSufficientPrecommits := by
  simp only [Process.tryTimeoutPrecommitUponSufficientPrecommits]
  split
  · exact pred_id p
  · split
    · exact ⟨⟨rfl, rfl, rfl, rfl, rfl, rfl, rfl, rfl, rfl, rfl⟩, Or.inl rfl,
        noBP_cons (fun h r v vr hc => Output.noConfusion hc) noBP_nil, fun _ h => h⟩
    · exact pred_id p

theorem coreA : ∀ fuel : Nat,
    (∀ p, Pred p (Process.tryPrevoteUponPropose fuel p)) ∧
    (∀ p, Pred p (Process.tryPrevoteUponSufficientPrevotes fuel p)) ∧
    (∀ p, Pred p (Process.tryPrecommitUponSufficientPrevotes fuel p)) ∧
    (∀ p, Pred p (Process.tryPrecommitNilUponSufficientPrevotes fuel p)) ∧
    (∀ p, Pred p (Process.stepToPrevoting fuel p)) ∧
    (∀ p, Pred p (Process.stepToPrecommitting fuel p)) := by
  intro fuel
  induction fuel with
  | zero =>
    exact ⟨fun p => pred_id p, fun p => pred_id p, fun p => pred_id p,
           fun p => pred_id p, fun p => pred_id p, fun p => pred_id p⟩
  | succ n ih =>
    obtain ⟨ih1, ih2, ih3, ih4, ih5, ih6⟩ := ih
    refine ⟨fun p => ?_, fun p => ?_, fun p => ?_, fun p => ?_, fun p => ?_, fun p => ?_⟩
    · -- tryPrevoteUponPropose
      simp only [Process.tryPrevoteUponPropose]
      split
      · exact pred_id p
      · split
        · exact pred_id p
        · rename_i propose heq
          split
          · exact pred_id p
          · obtain ⟨sc, st, nb, iv⟩ := ih5 p
            refine ⟨sc, st, noBP_cons ?_ nb, iv⟩
            split
            · exact fun h r v vr hc => Output.noConfusion hc
            · exact fun h r v vr hc => Output.noConfusion hc
    · -- tryPrevoteUponSufficientPrevotes
      simp only [Process.tryPrevoteUponSufficientPrevotes]
      split
      · exact pred_id p
      · split
        · exact pred_id p
        · rename_i propose heq
          split
          · exact pred_id p
          · split
            · exact pred_id p
            · obtain ⟨sc, st, nb, iv⟩ := ih5 p
              refine ⟨sc, st, noBP_cons ?_ nb, iv⟩
              split
              · exact fun h r v vr hc => Output.noConfusion hc
              · exact fun h r v vr hc => Output.noConfusion hc
    · -- tryPrecommitUponSufficientPrevotes
      simp only [Process.tryPrecommitUponSufficientPrevotes]
      split
      · exact pred_id p
      · split
        · exact pred_id p
        · split
          · exact pred_id p
          · rename_i propose heq
            split
            · exact pred_id p
            · split
              · -- CurrentStep = Prevoting: lock, broadcast, step, re-try
                rename_i hcount hpv
                set pL := { p with LockedValue := propose.value, LockedRound := p.CurrentRound }
                  with hpLdef
                set r1 := Process.stepToPrecommitting n pL with hr1def
                set p2 := { r1.1 with ValidValue := propose.value, ValidRound := r1.1.CurrentRound }
                  with hp2def
                set p3 := p2.setOnceFlag p2.CurrentRound OnceFlagPrecommitUponSufficientPrevotes
                  with hp3def
                set r2 := Process.tryPrevoteUponPropose n p3 with hr2def
                set r3 := Process.tryPrevoteUponSufficientPrevotes n r2.1 with hr3def
                have hc0 : SameCore p pL := ⟨rfl, rfl, rfl, rfl, rfl, rfl, rfl, rfl, rfl, rfl⟩
                obtain ⟨sc1, st1, nb1, iv1⟩ := ih6 pL
                have hc2 : SameCore r1.1 p2 := ⟨rfl, rfl, rfl, rfl, rfl, rfl, rfl, rfl, rfl, rfl⟩
                have hc3 : SameCore p2 p3 := ⟨rfl, rfl, rfl, rfl, rfl, rfl, rfl, rfl, rfl, rfl⟩
                obtain ⟨sc2, st2, nb2, iv2⟩ := ih1 p3
                obtain ⟨sc3, st3, nb3, iv3⟩ := ih2 r2.1
                have hcp3 : SameCore p p3 :=
                  sameCore_trans hc0 (sameCore_trans sc1 (sameCore_trans hc2 hc3))
                refine ⟨?_, ?_, ?_, ?_⟩
                · exact sameCore_trans hcp3 (sameCore_trans sc2 sc3)
                · have h1 : r1.1.CurrentStep ≠ Step.proposing := by
                    rcases st1 with h | h
                    · rw [h]
                      show p.CurrentStep ≠ Step.proposing
                      rw [hpv]
                      decide
                    · exact h
                  have h3 : p3.CurrentStep ≠ Step.proposing := h1
                  exact Or.inr (stepNe_trans (stepNe_trans h3 st2) st3)
                · exact noBP_cons (fun h r v vr hc => Output.noConfusion hc)
                    (noBP_append (noBP_append nb1 nb2) nb3)
                · intro hnil hp
                  have hval : p.validator propose.value = true := hp.2.2 _ _ heq
                  have hvne : propose.value ≠ NilValue := by
                    intro hv
                    rw [hv, hnil] at hval
                    exact Bool.noConfusion hval
                  have hrne : p.CurrentRound ≠ InvalidRound := by
                    have h0 := hp.2.1
                    intro hc
                    rw [hc] at h0
                    exact absurd h0 (by decide)
                  have hInvL : InvL pL := by
                    refine ⟨⟨?_, hp.1.2⟩, hp.2.1, hp.2.2⟩
                    show p.CurrentRound = InvalidRound ↔ propose.value = NilValue
                    exact iff_of_false hrne hvne
                  have hiL := iv1 hnil hInvL
                  have hInv2 : InvL p2 := by
                    refine ⟨⟨hiL.1.1, ?_⟩, hiL.2.1, hiL.2.2⟩
                    show r1.1.CurrentRound = InvalidRound ↔ propose.value = NilValue
                    refine iff_of_false ?_ hvne
                    rw [sc1.round]
                    exact hrne
                  have hInv3 : InvL p3 := hInv2
                  have hnil3 : p3.validator NilValue = false := by
                    rw [hcp3.validator]
                    exact hnil
                  exact iv3 (by rw [sc2.validator]; exact hnil3) (iv2 hnil3 hInv3)
              · -- CurrentStep = Precommitting: only the valid fields move
                rename_i hcount hnpv
                refine ⟨⟨rfl, rfl, rfl, rfl, rfl, rfl, rfl, rfl, rfl, rfl⟩, Or.inl rfl,
                  noBP_nil, ?_⟩
                intro hnil hp
                have hval : p.validator propose.value = true := hp.2.2 _ _ heq
                have hvne : propose.value ≠ NilValue := by
                  intro hv
                  rw [hv, hnil] at hval
                  exact Bool.noConfusion hval
                have hrne : p.CurrentRound ≠ InvalidRound := by
                  have h0 := hp.2.1
                  intro hc
                  rw [hc] at h0
                  exact absurd h0 (by decide)
                refine ⟨⟨hp.1.1, ?_⟩, hp.2.1, hp.2.2⟩
                show p.CurrentRound = InvalidRound ↔ propose.value = NilValue
                exact iff_of_false hrne hvne
    · -- tryPrecommitNilUponSufficientPrevotes
      simp only [Process.tryPrecommitNilUponSufficientPrevotes]
      split
      · exact pred_id p
      · split
        · obtain ⟨sc, st, nb, iv⟩ := ih6 p
          exact ⟨sc, st, noBP_cons (fun h r v vr hc => Output.noConfusion hc) nb, iv⟩
        · exact pred_id p
    · -- stepToPrevoting
      simp only [Process.stepToPrevoting]
      have pred0 : Pred p ({ p with CurrentStep := Step.prevoting }, []) := by
        refine ⟨⟨rfl, rfl, rfl, rfl, rfl, rfl, rfl, rfl, rfl, rfl⟩, Or.inr ?_, noBP_nil,
          fun _ h => h⟩
        show Step.prevoting ≠ Step.proposing
        decide
      have h1 := pred_seq pred0 (ih3 { p with CurrentStep := Step.prevoting })
      have h2 := pred_seq h1 (ih4 _)
      have h3 := pred_seq h2 (pred_tryTimeoutPrevote _)
      simpa only [List.nil_append, List.append_assoc] using h3
    · -- stepToPrecommitting
      simp only [Process.stepToPrecommitting]
      have pred0 : Pred p ({ p with CurrentStep := Step.precommitting }, []) := by
        refine ⟨⟨rfl, rfl, rfl, rfl, rfl, rfl, rfl, rfl, rfl, rfl⟩, Or.inr ?_, noBP_nil,
          fun _ h => h⟩
        show Step.precommitting ≠ Step.proposing
        decide
      have h1 := pred_seq pred0 (ih3 { p with CurrentStep := Step.precommitting })
      simpa only [List.nil_append] using h1

/-! ## Derived lemmas about StartRound, round skipping and committing -/

/-- Every `BroadcastPropose` among the outputs is for a height and round at
which `p` is the scheduled proposer. -/
def bpGuard (p : Process) (outs : List Output) : Prop :=
  ∀ h r v vr, Output.broadcastPropose h r v vr ∈ outs → p.schedule h r = p.Whoami

theorem bpGuard_nil (p : Process) : bpGuard p [] := by
  intro h r v vr hm
  cases hm

theorem bpGuard_of_noBP {p : Process} {outs : List Output} (h : noBP outs) : bpGuard p outs :=
  fun hh r v vr hm => absurd rfl (h _ hm hh r v vr)

theorem bpGuard_append {p : Process} {a b : List Output}
    (ha : bpGuard p a) (hb : bpGuard p b) : bpGuard p (a ++ b) := by
  intro h r v vr hm
  rcases List.mem_append.1 hm with hm | hm
  · exact ha h r v vr hm
  · exact hb h r v vr hm

theorem bpGuard_transport {p q : Process} {outs : List Output} (h : bpGuard q outs)
    (hs : q.schedule = p.schedule) (hw : q.Whoami = p.Whoami) : bpGuard p outs := by
  intro hh r v vr hm
  have := h hh r v vr hm
  rw [hs, hw] at this
  exact this

/-- The collaborator fields, never modified by any Process method. -/
structure Collab (p q : Process) : Prop where
  schedule : q.schedule = p.schedule
  proposer : q.proposer = p.proposer
  validator : q.validator = p.validator
  whoami : q.Whoami = p.Whoami
  f : q.F = p.F

theorem collab_refl (p : Process) : Collab p p := ⟨rfl, rfl, rfl, rfl, rfl⟩

theorem collab_trans {p q s : Process} (h1 : Collab p q) (h2 : Collab q s) : Collab p s :=
  ⟨h2.schedule.trans h1.schedule, h2.proposer.trans h1.proposer,
   h2.validator.trans h1.validator, h2.whoami.trans h1.whoami, h2.f.trans h1.f⟩

/-- Fields preserved by `StartRound` and everything below it: the
collaborators, the current height and all three message logs. -/
structure CoreFrame (p q : Process) : Prop where
  collab : Collab p q
  height : q.CurrentHeight = p.CurrentHeight
  plogs : q.ProposeLogs = p.ProposeLogs
  pvlogs : q.PrevoteLogs = p.PrevoteLogs
  pclogs : q.PrecommitLogs = p.PrecommitLogs

theorem coreFrame_refl (p : Process) : CoreFrame p p := ⟨collab_refl p, rfl, rfl, rfl, rfl⟩

theorem coreFrame_trans {p q s : Process} (h1 : CoreFrame p q) (h2 : CoreFrame q s) :
    CoreFrame p s :=
  ⟨collab_trans h1.collab h2.collab, h2.height.trans h1.height, h2.plogs.trans h1.plogs,
   h2.pvlogs.trans h1.pvlogs, h2.pclogs.trans h1.pclogs⟩

theorem coreFrame_of_sameCore {p q : Process} (h : SameCore p q) : CoreFrame p q :=
  ⟨⟨h.schedule, h.proposer, h.validator, h.whoami, h.f⟩, h.height, h.plogs, h.pvlogs, h.pclogs⟩

/-- Either the height and all logs are untouched, or the height strictly
increased (a commit happened); message re-delivery is rejected either way. -/
def HL (p q : Process) : Prop :=
  (q.CurrentHeight = p.CurrentHeight ∧ q.ProposeLogs = p.ProposeLogs ∧
   q.PrevoteLogs = p.PrevoteLogs ∧ q.PrecommitLogs = p.PrecommitLogs) ∨
  p.CurrentHeight < q.CurrentHeight

theorem hl_refl (p : Process) : HL p p := Or.inl ⟨rfl, rfl, rfl, rfl⟩

theorem hl_of_coreFrame {p q : Process} (h : CoreFrame p q) : HL p q :=
  Or.inl ⟨h.height, h.plogs, h.pvlogs, h.pclogs⟩

theorem hl_trans {p q s : Process} (h1 : HL p q) (h2 : HL q s) : HL p s := by
  rcases h1 with ⟨hh1, hp1, hv1, hc1⟩ | h1
  · rcases h2 with ⟨hh2, hp2, hv2, hc2⟩ | h2
    · exact Or.inl ⟨hh2.trans hh1, hp2.trans hp1, hv2.trans hv1, hc2.trans hc1⟩
    · exact Or.inr (by rw [hh1] at h2; exact h2)
  · rcases h2 with ⟨hh2, hp2, hv2, hc2⟩ | h2
    · exact Or.inr (by rw [hh2]; exact h1)
    · exact Or.inr (h1.trans h2)

theorem startRoundDefer_pred : ∀ (fuel : Nat) (p : Process),
    Pred p (Process.startRoundDefer fuel p) := by
  intro fuel p
  match fuel with
  | 0 => exact pred_id p
  | n + 1 =>
    simp only [Process.startRoundDefer]
    have h1 := pred_seq (pred_id p) ((coreA n).2.2.1 p)
    have h2 := pred_seq h1 ((coreA n).2.2.2.1 _)
    have h3 := pred_seq h2 ((coreA n).1 _)
    have h4 := pred_seq h3 ((coreA n).2.1 _)
    have h5 := pred_seq h4 (pred_tryTimeoutPrecommit _)
    have h6 := pred_seq h5 (pred_tryTimeoutPrevote _)
    simpa only [List.nil_append] using h6

/-- `startRoundRest` has the same frame as the deferred re-evaluations, and
only broadcasts a Propose when `p` is the scheduled proposer at the current
height and round. -/
theorem startRoundRest_spec : ∀ (fuel : Nat) (p : Process),
    SameCore p (Process.startRoundRest fuel p).1 ∧
    StepOK p (Process.startRoundRest fuel p).1 ∧
    bpGuard p (Process.startRoundRest fuel p).2 ∧
    (p.validator NilValue = false → InvL p → InvL (Process.startRoundRest fuel p).1) := by
  intro fuel p
  match fuel with
  | 0 => exact ⟨sameCore_refl p, stepOK_refl p, bpGuard_nil p, fun _ h => h⟩
  | n + 1 =>
    simp only [Process.startRoundRest]
    obtain ⟨sc, st, nb, iv⟩ := startRoundDefer_pred n p
    refine ⟨sc, st, bpGuard_append ?_ (bpGuard_of_noBP nb), iv⟩
    split
    · intro hh r v vr hm
      rcases List.mem_cons.1 hm with hm | hm
      · exact absurd hm (by intro hc; exact Output.noConfusion hc)
      · cases hm
    · rename_i hprop
      intro hh r v vr hm
      rcases List.mem_cons.1 hm with hm | hm
      · cases hm
        push_neg at hprop
        exact hprop.symm
      · cases hm

theorem startRound_coreFrame : ∀ (fuel : Nat) (p : Process) (round : Round),
    CoreFrame p (Process.StartRound fuel p round).1 := by
  intro fuel p round
  match fuel with
  | 0 => exact coreFrame_refl p
  | n + 1 =>
    simp only [Process.StartRound]
    exact coreFrame_trans
      (⟨⟨rfl, rfl, rfl, rfl, rfl⟩, rfl, rfl, rfl, rfl⟩ :
        CoreFrame p { p with CurrentRound := round, CurrentStep := Step.proposing })
      (coreFrame_of_sameCore (startRoundRest_spec n _).1)

theorem startRound_round (fuel : Nat) (p : Process) (round : Round) :
    (Process.StartRound (fuel + 1) p round).1.CurrentRound = round := by
  simp only [Process.StartRound]
  exact (startRoundRest_spec fuel _).1.round

theorem startRound_height (fuel : Nat) (p : Process) (round : Round) :
    (Process.StartRound fuel p round).1.CurrentHeight = p.CurrentHeight :=
  (startRound_coreFrame fuel p round).height

theorem startRound_bpGuard : ∀ (fuel : Nat) (p : Process) (round : Round),
    bpGuard p (Process.StartRound fuel p round).2 := by
  intro fuel p round
  match fuel with
  | 0 => exact bpGuard_nil p
  | n + 1 =>
    simp only [Process.StartRound]
    exact bpGuard_transport (startRoundRest_spec n _).2.2.1 rfl rfl

theorem startRound_inv : ∀ (fuel : Nat) (p : Process) (round : Round),
    p.validator NilValue = false → InvL p → 0 ≤ round →
    InvL (Process.StartRound fuel p round).1 := by
  intro fuel p round hnil hp hr
  match fuel with
  | 0 => exact hp
  | n + 1 =>
    simp only [Process.StartRound]
    exact (startRoundRest_spec n _).2.2.2 hnil ⟨hp.1, hr, hp.2.2⟩

theorem trySkip_coreFrame : ∀ (fuel : Nat) (p : Process) (round : Round),
    CoreFrame p (Process.trySkipToFutureRound fuel p round).1 := by
  intro fuel p round
  match fuel with
  | 0 => exact coreFrame_refl p
  | n + 1 =>
    simp only [Process.trySkipToFutureRound]
    split
    · exact coreFrame_refl p
    · split <;> split
      · exact startRound_coreFrame n p round
      · exact coreFrame_refl p
      · exact startRound_coreFrame n p round
      · exact coreFrame_refl p

theorem trySkip_bpGuard : ∀ (fuel : Nat) (p : Process) (round : Round),
    bpGuard p (Process.trySkipToFutureRound fuel p round).2 := by
  intro fuel p round
  match fuel with
  | 0 => exact bpGuard_nil p
  | n + 1 =>
    simp only [Process.trySkipToFutureRound]
    split
    · exact bpGuard_nil p
    · split <;> split
      · exact startRound_bpGuard n p round
      · exact bpGuard_nil p
      · exact startRound_bpGuard n p round
      · exact bpGuard_nil p

theorem trySkip_inv : ∀ (fuel : Nat) (p : Process) (round : Round),
    p.validator NilValue = false → InvL p →
    InvL (Process.trySkipToFutureRound fuel p round).1 := by
  intro fuel p round hnil hp
  match fuel with
  | 0 => exact hp
  | n + 1 =>
    simp only [Process.trySkipToFutureRound]
    split
    · exact hp
    · rename_i hgt
      have hr : (0 : Int) ≤ round := by
        have h0 : (0 : Int) ≤ p.CurrentRound := hp.2.1
        exact le_of_lt (lt_of_le_of_lt h0 (not_le.mp hgt))
      split <;> split
      · exact startRound_inv n p round hnil hp hr
      · exact hp
      · exact startRound_inv n p round hnil hp hr
      · exact hp

theorem tryCommit_collab : ∀ (fuel : Nat) (p : Process) (round : Round),
    Collab p (Process.tryCommitUponSufficientPrecommits fuel p round).1 := by
  intro fuel p round
  match fuel with
  | 0 => exact collab_refl p
  | n + 1 =>
    simp only [Process.tryCommitUponSufficientPrecommits]
    split
    · exact collab_refl p
    · split
      · dsimp only
        refine collab_trans ?_ (startRound_coreFrame n _ 0).collab
        exact ⟨rfl, rfl, rfl, rfl, rfl⟩
      · exact collab_refl p

theorem tryCommit_hl : ∀ (fuel : Nat) (p : Process) (round : Round),
    HL p (Process.tryCommitUponSufficientPrecommits fuel p round).1 := by
  intro fuel p round
  match fuel with
  | 0 => exact hl_refl p
  | n + 1 =>
    simp only [Process.tryCommitUponSufficientPrecommits]
    split
    · exact hl_refl p
    · split
      · dsimp only
        refine Or.inr ?_
        rw [startRound_height]
        exact lt_add_one _
      · exact hl_refl p

theorem tryCommit_bpGuard : ∀ (fuel : Nat) (p : Process) (round : Round),
    bpGuard p (Process.tryCommitUponSufficientPrecommits fuel p round).2 := by
  intro fuel p round
  match fuel with
  | 0 => exact bpGuard_nil p
  | n + 1 =>
    simp only [Process.tryCommitUponSufficientPrecommits]
    split
    · exact bpGuard_nil p
    · split
      · dsimp only
        refine fun hh r v vr hm => ?_
        rcases List.mem_cons.1 hm with hm | hm
        · exact absurd hm (by intro hc; exact Output.noConfusion hc)
        · revert hm
          exact startRound_bpGuard n _ 0 hh r v vr
      · exact bpGuard_nil p

theorem tryCommit_inv : ∀ (fuel : Nat) (p : Process) (round : Round),
    p.validator NilValue = false → InvL p →
    InvL (Process.tryCommitUponSufficientPrecommits fuel p round).1 := by
  intro fuel p round hnil hp
  match fuel with
  | 0 => exact hp
  | n + 1 =>
    simp only [Process.tryCommitUponSufficientPrecommits]
    split
    · exact hp
    · split
      · dsimp only
        refine startRound_inv n _ 0 hnil ?_ le_rfl
        refine ⟨⟨?_, ?_⟩, hp.2.1, ?_⟩
        · exact iff_of_true rfl rfl
        · exact iff_of_true rfl rfl
        · intro r pr hc
          exact Option.noConfusion hc
      · exact hp

/-! ## Insertion lemmas and event-level composition -/

/-- Non-effect outputs (Catcher reports) are discarded; the claimed
idempotence concerns broadcasts, timer requests and commits. -/
def effects (outs : List Output) : List Output :=
  outs.filter fun o =>
    match o with
    | Output.catchDoublePropose _ _ => false
    | Output.catchDoublePrevote _ _ => false
    | Output.catchDoublePrecommit _ _ => false
    | _ => true

theorem effects_append (a b : List Output) : effects (a ++ b) = effects a ++ effects b := by
  simp [effects]

theorem insertPropose_cases (p : Process) (m : Propose) :
    (p.insertPropose m).1 = p ∨ (p.insertPropose m).2.1 = true := by
  unfold Process.insertPropose
  repeat' split
  all_goals first | exact Or.inl rfl | exact Or.inr rfl

theorem insertPrevote_cases (p : Process) (m : Prevote) :
    (p.insertPrevote m).1 = p ∨ (p.insertPrevote m).2.1 = true := by
  unfold Process.insertPrevote
  repeat' split
  all_goals first | exact Or.inl rfl | exact Or.inr rfl

theorem insertPrecommit_cases (p : Process) (m : Precommit) :
    (p.insertPrecommit m).1 = p ∨ (p.insertPrecommit m).2.1 = true := by
  unfold Process.insertPrecommit
  repeat' split
  all_goals first | exact Or.inl rfl | exact Or.inr rfl

theorem insertPropose_reject (p : Process) (m : Propose)
    (h : (p.insertPropose m).2.1 = false) : (p.insertPropose m).1 = p :=
  (insertPropose_cases p m).resolve_right (by simp [h])

theorem insertPrevote_reject (p : Process) (m : Prevote)
    (h : (p.insertPrevote m).2.1 = false) : (p.insertPrevote m).1 = p :=
  (insertPrevote_cases p m).resolve_right (by simp [h])

theorem insertPrecommit_reject (p : Process) (m : Precommit)
    (h : (p.insertPrecommit m).2.1 = false) : (p.insertPrecommit m).1 = p :=
  (insertPrecommit_cases p m).resolve_right (by simp [h])

theorem insertPropose_effects (p : Process) (m : Propose) :
    effects (p.insertPropose m).2.2 = [] := by
  unfold Process.insertPropose
  repeat' split
  all_goals rfl

theorem insertPrevote_effects (p : Process) (m : Prevote) :
    effects (p.insertPrevote m).2.2 = [] := by
  unfold Process.insertPrevote
  repeat' split
  all_goals rfl

theorem insertPrecommit_effects (p : Process) (m : Precommit) :
    effects (p.insertPrecommit m).2.2 = [] := by
  unfold Process.insertPrecommit
  repeat' split
  all_goals rfl

theorem insertPropose_noBP (p : Process) (m : Propose) : noBP (p.insertPropose m).2.2 := by
  unfold Process.insertPropose
  repeat' split
  all_goals
    first
    | exact noBP_nil
    | exact noBP_cons (fun h r v vr hc => Output.noConfusion hc) noBP_nil

theorem insertPrevote_noBP (p : Process) (m : Prevote) : noBP (p.insertPrevote m).2.2 := by
  unfold Process.insertPrevote
  repeat' split
  all_goals
    first
    | exact noBP_nil
    | exact noBP_cons (fun h r v vr hc => Output.noConfusion hc) noBP_nil

theorem insertPrecommit_noBP (p : Process) (m : Precommit) : noBP (p.insertPrecommit m).2.2 := by
  unfold Process.insertPrecommit
  repeat' split
  all_goals
    first
    | exact noBP_nil
    | exact noBP_cons (fun h r v vr hc => Output.noConfusion hc) noBP_nil

theorem insertPropose_collab (p : Process) (m : Propose) :
    Collab p (p.insertPropose m).1 := by
  unfold Process.insertPropose
  repeat' split
  all_goals exact ⟨rfl, rfl, rfl, rfl, rfl⟩

theorem insertPrevote_collab (p : Process) (m : Prevote) :
    Collab p (p.insertPrevote m).1 := by
  unfold Process.insertPrevote
  repeat' split
  all_goals exact ⟨rfl, rfl, rfl, rfl, rfl⟩

theorem insertPrecommit_collab (p : Process) (m : Precommit) :
    Collab p (p.insertPrecommit m).1 := by
  unfold Process.insertPrecommit
  repeat' split
  all_goals exact ⟨rfl, rfl, rfl, rfl, rfl⟩

theorem insertPropose_inv (p : Process) (m : Propose) (hp : InvL p) :
    InvL (p.insertPropose m).1 := by
  unfold Process.insertPropose
  repeat' split
  any_goals exact hp
  rename_i hvalid
  refine ⟨hp.1, hp.2.1, ?_⟩
  intro r pr hpr
  dsimp only at hpr
  by_cases hr : r = m.round
  · rw [if_pos hr] at hpr
    cases hpr
    exact not_not.mp hvalid
  · rw [if_neg hr] at hpr
    exact hp.2.2 r pr hpr

theorem insertPrevote_inv (p : Process) (m : Prevote) (hp : InvL p) :
    InvL (p.insertPrevote m).1 := by
  unfold Process.insertPrevote
  repeat' split
  all_goals exact ⟨hp.1, hp.2.1, hp.2.2⟩

theorem insertPrecommit_inv (p : Process) (m : Precommit) (hp : InvL p) :
    InvL (p.insertPrecommit m).1 := by
  unfold Process.insertPrecommit
  repeat' split
  all_goals exact ⟨hp.1, hp.2.1, hp.2.2⟩

/-- Collaborators plus invariant preservation, the composable shape for the
event-level chains. -/
def CInv (p q : Process) : Prop :=
  Collab p q ∧ (p.validator NilValue = false → InvL p → InvL q)

theorem cinv_trans {p q s : Process} (h1 : CInv p q) (h2 : CInv q s) : CInv p s :=
  ⟨collab_trans h1.1 h2.1,
   fun hnil hp => h2.2 (h1.1.validator.symm ▸ hnil) (h1.2 hnil hp)⟩

theorem cinv_of_pred {p : Process} {res : Process × List Output} (h : Pred p res) :
    CInv p res.1 :=
  ⟨⟨h.1.schedule, h.1.proposer, h.1.validator, h.1.whoami, h.1.f⟩, h.2.2.2⟩

theorem cinv_bind (F : Process → Process × List Output)
    (hF : ∀ q, CInv q (F q).1) {p q : Process} (h : CInv p q) : CInv p ((F q).1) :=
  cinv_trans h (hF q)

theorem hl_bind (F : Process → Process × List Output)
    (hF : ∀ q, HL q (F q).1) {p q : Process} (h : HL p q) : HL p ((F q).1) :=
  hl_trans h (hF q)

theorem bp_bind (F : Process → Process × List Output)
    (hF : ∀ q, Collab q (F q).1 ∧ bpGuard q (F q).2)
    {p q : Process} {acc : List Output} (h : Collab p q ∧ bpGuard p acc) :
    Collab p ((F q).1) ∧ bpGuard p (acc ++ (F q).2) :=
  ⟨collab_trans h.1 (hF q).1,
   bpGuard_append h.2 (bpGuard_transport (hF q).2 h.1.schedule h.1.whoami)⟩

theorem bp_of_pred {p : Process} {res : Process × List Output} (h : Pred p res) :
    Collab p res.1 ∧ bpGuard p res.2 :=
  ⟨⟨h.1.schedule, h.1.proposer, h.1.validator, h.1.whoami, h.1.f⟩, bpGuard_of_noBP h.2.2.1⟩

theorem insertPropose_height_ne (p : Process) (m : Propose) (hh : m.height ≠ p.CurrentHeight) :
    p.insertPropose m = (p, false, []) := by
  unfold Process.insertPropose
  rw [if_pos hh]

theorem insertPrevote_height_ne (p : Process) (m : Prevote) (hh : m.height ≠ p.CurrentHeight) :
    p.insertPrevote m = (p, false, []) := by
  unfold Process.insertPrevote
  rw [if_pos hh]

theorem insertPrecommit_height_ne (p : Process) (m : Precommit) (hh : m.height ≠ p.CurrentHeight) :
    p.insertPrecommit m = (p, false, []) := by
  unfold Process.insertPrecommit
  rw [if_pos hh]

theorem insertPropose_dup (p : Process) (m : Propose) (hh : m.height = p.CurrentHeight)
    (hl : p.ProposeLogs m.round = some m) : p.insertPropose m = (p, false, []) := by
  simp [Process.insertPropose, hh, hl]

theorem insertPrevote_dup (p : Process) (m : Prevote) (hh : m.height = p.CurrentHeight)
    (hl : (p.PrevoteLogs m.round).lookup m.sender = some m) :
    p.insertPrevote m = (p, false, []) := by
  simp [Process.insertPrevote, hh, hl]

theorem insertPrecommit_dup (p : Process) (m : Precommit) (hh : m.height = p.CurrentHeight)
    (hl : (p.PrecommitLogs m.round).lookup m.sender = some m) :
    p.insertPrecommit m = (p, false, []) := by
  simp [Process.insertPrecommit, hh, hl]

theorem insertPropose_accept (p : Process) (m : Propose)
    (h : (p.insertPropose m).2.1 = true) :
    m.height = p.CurrentHeight ∧
    (p.insertPropose m).1.CurrentHeight = p.CurrentHeight ∧
    (p.insertPropose m).1.ProposeLogs m.round = some m := by
  by_cases hh : m.height = p.CurrentHeight
  · cases hl : p.ProposeLogs m.round with
    | some ex =>
      have hr : (p.insertPropose m).2.1 = false := by
        simp only [Process.insertPropose, hh, hl]
        simp [apply_ite]
      rw [hr] at h
      exact absurd h (by simp)
    | none =>
      by_cases hs : p.schedule p.CurrentHeight m.round = m.sender
      · by_cases hv : p.validator m.value = true
        · have hacc : p.insertPropose m =
              ({ p with ProposeLogs :=
                   fun r => if r = m.round then some m else p.ProposeLogs r }, true, []) := by
            simp [Process.insertPropose, hh, hl, hs, hv]
          rw [hacc]
          exact ⟨hh, rfl, by simp⟩
        · have hr : p.insertPropose m = (p, false, []) := by
            simp [Process.insertPropose, hh, hl, hs, hv]
          rw [hr] at h
          exact absurd h (by simp)
      · have hr : p.insertPropose m = (p, false, []) := by
          simp [Process.insertPropose, hh, hl, hs]
        rw [hr] at h
        exact absurd h (by simp)
  · rw [insertPropose_height_ne p m hh] at h
    exact absurd h (by simp)

theorem insertPrevote_accept (p : Process) (m : Prevote)
    (h : (p.insertPrevote m).2.1 = true) :
    m.height = p.CurrentHeight ∧
    (p.insertPrevote m).1.CurrentHeight = p.CurrentHeight ∧
    ((p.insertPrevote m).1.PrevoteLogs m.round).lookup m.sender = some m := by
  by_cases hh : m.height = p.CurrentHeight
  · cases hl : (p.PrevoteLogs m.round).lookup m.sender with
    | some ex =>
      have hr : (p.insertPrevote m).2.1 = false := by
        simp only [Process.insertPrevote, hh, hl]
        simp [apply_ite]
      rw [hr] at h
      exact absurd h (by simp)
    | none =>
      have hacc : p.insertPrevote m =
          ({ p with PrevoteLogs :=
               fun r => if r = m.round then (m.sender, m) :: p.PrevoteLogs r
                        else p.PrevoteLogs r }, true, []) := by
        simp [Process.insertPrevote, hh, hl]
      rw [hacc]
      refine ⟨hh, rfl, ?_⟩
      simp [List.lookup]
  · rw [insertPrevote_height_ne p m hh] at h
    exact absurd h (by simp)

theorem insertPrecommit_accept (p : Process) (m : Precommit)
    (h : (p.insertPrecommit m).2.1 = true) :
    m.height = p.CurrentHeight ∧
    (p.insertPrecommit m).1.CurrentHeight = p.CurrentHeight ∧
    ((p.insertPrecommit m).1.PrecommitLogs m.round).lookup m.sender = some m := by
  by_cases hh : m.height = p.CurrentHeight
  · cases hl : (p.PrecommitLogs m.round).lookup m.sender with
    | some ex =>
      have hr : (p.insertPrecommit m).2.1 = false := by
        simp only [Process.insertPrecommit, hh, hl]
        simp [apply_ite]
      rw [hr] at h
      exact absurd h (by simp)
    | none =>
      have hacc : p.insertPrecommit m =
          ({ p with PrecommitLogs :=
               fun r => if r = m.round then (m.sender, m) :: p.PrecommitLogs r
                        else p.PrecommitLogs r }, true, []) := by
        simp [Process.insertPrecommit, hh, hl]
      rw [hacc]
      refine ⟨hh, rfl, ?_⟩
      simp [List.lookup]
  · rw [insertPrecommit_height_ne p m hh] at h
    exact absurd h (by simp)

theorem deliverPropose_hl (p : Process) (m : Propose) :
    HL (p.insertPropose m).1 (p.deliverPropose m).1 := by
  simp only [Process.deliverPropose]
  split
  · dsimp only
    have h1 := hl_bind (fun q => Process.trySkipToFutureRound procFuel q m.round)
      (fun q => hl_of_coreFrame (trySkip_coreFrame procFuel q m.round))
      (hl_refl ((p.insertPropose m).1))
    have h2 := hl_bind (fun q => Process.tryCommitUponSufficientPrecommits procFuel q m.round)
      (fun q => tryCommit_hl procFuel q m.round) h1
    have h3 := hl_bind (fun q => Process.tryPrecommitUponSufficientPrevotes procFuel q)
      (fun q => hl_of_coreFrame (coreFrame_of_sameCore ((coreA procFuel).2.2.1 q).1)) h2
    have h4 := hl_bind (fun q => Process.tryPrevoteUponPropose procFuel q)
      (fun q => hl_of_coreFrame (coreFrame_of_sameCore ((coreA procFuel).1 q).1)) h3
    exact hl_bind (fun q => Process.tryPrevoteUponSufficientPrevotes procFuel q)
      (fun q => hl_of_coreFrame (coreFrame_of_sameCore ((coreA procFuel).2.1 q).1)) h4
  · exact hl_refl _

theorem deliverPrevote_hl (p : Process) (m : Prevote) :
    HL (p.insertPrevote m).1 (p.deliverPrevote m).1 := by
  simp only [Process.deliverPrevote]
  split
  · dsimp only
    have h1 := hl_bind (fun q => Process.trySkipToFutureRound procFuel q m.round)
      (fun q => hl_of_coreFrame (trySkip_coreFrame procFuel q m.round))
      (hl_refl ((p.insertPrevote m).1))
    have h2 := hl_bind (fun q => Process.tryPrecommitUponSufficientPrevotes procFuel q)
      (fun q => hl_of_coreFrame (coreFrame_of_sameCore ((coreA procFuel).2.2.1 q).1)) h1
    have h3 := hl_bind (fun q => Process.tryPrecommitNilUponSufficientPrevotes procFuel q)
      (fun q => hl_of_coreFrame (coreFrame_of_sameCore ((coreA procFuel).2.2.2.1 q).1)) h2
    have h4 := hl_bind (fun q => Process.tryPrevoteUponSufficientPrevotes procFuel q)
      (fun q => hl_of_coreFrame (coreFrame_of_sameCore ((coreA procFuel).2.1 q).1)) h3
    exact hl_bind (fun q => q.tryTimeoutPrevoteUponSufficientPrevotes)
      (fun q => hl_of_coreFrame (coreFrame_of_sameCore (pred_tryTimeoutPrevote q).1)) h4
  · exact hl_refl _

theorem deliverPrecommit_hl (p : Process) (m : Precommit) :
    HL (p.insertPrecommit m).1 (p.deliverPrecommit m).1 := by
  simp only [Process.deliverPrecommit]
  split
  · dsimp only
    have h1 := hl_bind (fun q => Process.trySkipToFutureRound procFuel q m.round)
      (fun q => hl_of_coreFrame (trySkip_coreFrame procFuel q m.round))
      (hl_refl ((p.insertPrecommit m).1))
    have h2 := hl_bind (fun q => Process.tryCommitUponSufficientPrecommits procFuel q m.round)
      (fun q => tryCommit_hl procFuel q m.round) h1
    exact hl_bind (fun q => q.tryTimeoutPrecommitUponSufficientPrecommits)
      (fun q => hl_of_coreFrame (coreFrame_of_sameCore (pred_tryTimeoutPrecommit q).1)) h2
  · exact hl_refl _

theorem deliverPropose_bp (p : Process) (m : Propose) :
    Collab p (p.deliverPropose m).1 ∧ bpGuard p (p.deliverPropose m).2 := by
  simp only [Process.deliverPropose]
  split
  · dsimp only
    have h0 : Collab p (p.insertPropose m).1 ∧ bpGuard p (p.insertPropose m).2.2 :=
      ⟨insertPropose_collab p m, bpGuard_of_noBP (insertPropose_noBP p m)⟩
    have h1 := bp_bind (fun q => Process.trySkipToFutureRound procFuel q m.round)
      (fun q => ⟨(trySkip_coreFrame procFuel q m.round).collab,
                 trySkip_bpGuard procFuel q m.round⟩) h0
    have h2 := bp_bind (fun q => Process.tryCommitUponSufficientPrecommits procFuel q m.round)
      (fun q => ⟨tryCommit_collab procFuel q m.round, tryCommit_bpGuard procFuel q m.round⟩) h1
    have h3 := bp_bind (fun q => Process.tryPrecommitUponSufficientPrevotes procFuel q)
      (fun q => bp_of_pred ((coreA procFuel).2.2.1 q)) h2
    have h4 := bp_bind (fun q => Process.tryPrevoteUponPropose procFuel q)
      (fun q => bp_of_pred ((coreA procFuel).1 q)) h3
    exact bp_bind (fun q => Process.tryPrevoteUponSufficientPrevotes procFuel q)
      (fun q => bp_of_pred ((coreA procFuel).2.1 q)) h4
  · dsimp only
    exact ⟨insertPropose_collab p m, bpGuard_of_noBP (insertPropose_noBP p m)⟩

theorem deliverPrevote_bp (p : Process) (m : Prevote) :
    Collab p (p.deliverPrevote m).1 ∧ bpGuard p (p.deliverPrevote m).2 := by
  simp only [Process.deliverPrevote]
  split
  · dsimp only
    have h0 : Collab p (p.insertPrevote m).1 ∧ bpGuard p (p.insertPrevote m).2.2 :=
      ⟨insertPrevote_collab p m, bpGuard_of_noBP (insertPrevote_noBP p m)⟩
    have h1 := bp_bind (fun q => Process.trySkipToFutureRound procFuel q m.round)
      (fun q => ⟨(trySkip_coreFrame procFuel q m.round).collab,
                 trySkip_bpGuard procFuel q m.round⟩) h0
    have h2 := bp_bind (fun q => Process.tryPrecommitUponSufficientPrevotes procFuel q)
      (fun q => bp_of_pred ((coreA procFuel).2.2.1 q)) h1
    have h3 := bp_bind (fun q => Process.tryPrecommitNilUponSufficientPrevotes procFuel q)
      (fun q => bp_of_pred ((coreA procFuel).2.2.2.1 q)) h2
    have h4 := bp_bind (fun q => Process.tryPrevoteUponSufficientPrevotes procFuel q)
      (fun q => bp_of_pred ((coreA procFuel).2.1 q)) h3
    exact bp_bind (fun q => q.tryTimeoutPrevoteUponSufficientPrevotes)
      (fun q => bp_of_pred (pred_tryTimeoutPrevote q)) h4
  · dsimp only
    exact ⟨insertPrevote_collab p m, bpGuard_of_noBP (insertPrevote_noBP p m)⟩

theorem deliverPrecommit_bp (p : Process) (m : Precommit) :
    Collab p (p.deliverPrecommit m).1 ∧ bpGuard p (p.deliverPrecommit m).2 := by
  simp only [Process.deliverPrecommit]
  split
  · dsimp only
    have h0 : Collab p (p.insertPrecommit m).1 ∧ bpGuard p (p.insertPrecommit m).2.2 :=
      ⟨insertPrecommit_collab p m, bpGuard_of_noBP (insertPrecommit_noBP p m)⟩
    have h1 := bp_bind (fun q => Process.trySkipToFutureRound procFuel q m.round)
      (fun q => ⟨(trySkip_coreFrame procFuel q m.round).collab,
                 trySkip_bpGuard procFuel q m.round⟩) h0
    have h2 := bp_bind (fun q => Process.tryCommitUponSufficientPrecommits procFuel q m.round)
      (fun q => ⟨tryCommit_collab procFuel q m.round, tryCommit_bpGuard procFuel q m.round⟩) h1
    exact bp_bind (fun q => q.tryTimeoutPrecommitUponSufficientPrecommits)
      (fun q => bp_of_pred (pred_tryTimeoutPrecommit q)) h2
  · dsimp only
    exact ⟨insertPrecommit_collab p m, bpGuard_of_noBP (insertPrecommit_noBP p m)⟩

theorem onTimeoutPropose_bp (p : Process) (height : Height) (round : Round) :
    bpGuard p (p.OnTimeoutPropose height round).2 := by
  unfold Process.OnTimeoutPropose
  split
  · refine fun hh r v vr hm => ?_
    rcases List.mem_cons.1 hm with hm | hm
    · exact absurd hm (by intro hc; exact Output.noConfusion hc)
    · exact absurd rfl (((coreA procFuel).2.2.2.2.1 p).2.2.1 _ hm hh r v vr)
  · exact bpGuard_nil p

theorem onTimeoutPrevote_bp (p : Process) (height : Height) (round : Round) :
    bpGuard p (p.OnTimeoutPrevote height round).2 := by
  unfold Process.OnTimeoutPrevote
  split
  · refine fun hh r v vr hm => ?_
    rcases List.mem_cons.1 hm with hm | hm
    · exact absurd hm (by intro hc; exact Output.noConfusion hc)
    · exact absurd rfl (((coreA procFuel).2.2.2.2.2 p).2.2.1 _ hm hh r v vr)
  · exact bpGuard_nil p

theorem onTimeoutPrecommit_bp (p : Process) (height : Height) (round : Round) :
    bpGuard p (p.OnTimeoutPrecommit height round).2 := by
  unfold Process.OnTimeoutPrecommit
  split
  · exact startRound_bpGuard procFuel p (round + 1)
  · exact bpGuard_nil p

theorem deliverPropose_cinv (p : Process) (m : Propose) :
    CInv p (p.deliverPropose m).1 := by
  simp only [Process.deliverPropose]
  split
  · dsimp only
    have h0 : CInv p (p.insertPropose m).1 :=
      ⟨insertPropose_collab p m, fun _ hp => insertPropose_inv p m hp⟩
    have h1 := cinv_bind (fun q => Process.trySkipToFutureRound procFuel q m.round)
      (fun q => ⟨(trySkip_coreFrame procFuel q m.round).collab,
                 fun hnil hq => trySkip_inv procFuel q m.round hnil hq⟩) h0
    have h2 := cinv_bind (fun q => Process.tryCommitUponSufficientPrecommits procFuel q m.round)
      (fun q => ⟨tryCommit_collab procFuel q m.round,
                 fun hnil hq => tryCommit_inv procFuel q m.round hnil hq⟩) h1
    have h3 := cinv_bind (fun q => Process.tryPrecommitUponSufficientPrevotes procFuel q)
      (fun q => cinv_of_pred ((coreA procFuel).2.2.1 q)) h2
    have h4 := cinv_bind (fun q => Process.tryPrevoteUponPropose procFuel q)
      (fun q => cinv_of_pred ((coreA procFuel).1 q)) h3
    exact cinv_bind (fun q => Process.tryPrevoteUponSufficientPrevotes procFuel q)
      (fun q => cinv_of_pred ((coreA procFuel).2.1 q)) h4
  · dsimp only
    exact ⟨insertPropose_collab p m, fun _ hp => insertPropose_inv p m hp⟩

theorem deliverPrevote_cinv (p : Process) (m : Prevote) :
    CInv p (p.deliverPrevote m).1 := by
  simp only [Process.deliverPrevote]
  split
  · dsimp only
    have h0 : CInv p (p.insertPrevote m).1 :=
      ⟨insertPrevote_collab p m, fun _ hp => insertPrevote_inv p m hp⟩
    have h1 := cinv_bind (fun q => Process.trySkipToFutureRound procFuel q m.round)
      (fun q => ⟨(trySkip_coreFrame procFuel q m.round).collab,
                 fun hnil hq => trySkip_inv procFuel q m.round hnil hq⟩) h0
    have h2 := cinv_bind (fun q => Process.tryPrecommitUponSufficientPrevotes procFuel q)
      (fun q => cinv_of_pred ((coreA procFuel).2.2.1 q)) h1
    have h3 := cinv_bind (fun q => Process.tryPrecommitNilUponSufficientPrevotes procFuel q)
      (fun q => cinv_of_pred ((coreA procFuel).2.2.2.1 q)) h2
    have h4 := cinv_bind (fun q => Process.tryPrevoteUponSufficientPrevotes procFuel q)
      (fun q => cinv_of_pred ((coreA procFuel).2.1 q)) h3
    exact cinv_bind (fun q => q.tryTimeoutPrevoteUponSufficientPrevotes)
      (fun q => cinv_of_pred (pred_tryTimeoutPrevote q)) h4
  · dsimp only
    exact ⟨insertPrevote_collab p m, fun _ hp => insertPrevote_inv p m hp⟩

theorem deliverPrecommit_cinv (p : Process) (m : Precommit) :
    CInv p (p.deliverPrecommit m).1 := by
  simp only [Process.deliverPrecommit]
  split
  · dsimp only
    have h0 : CInv p (p.insertPrecommit m).1 :=
      ⟨insertPrecommit_collab p m, fun _ hp => insertPrecommit_inv p m hp⟩
    have h1 := cinv_bind (fun q => Process.trySkipToFutureRound procFuel q m.round)
      (fun q => ⟨(trySkip_coreFrame procFuel q m.round).collab,
                 fun hnil hq => trySkip_inv procFuel q m.round hnil hq⟩) h0
    have h2 := cinv_bind (fun q => Process.tryCommitUponSufficientPrecommits procFuel q m.round)
      (fun q => ⟨tryCommit_collab procFuel q m.round,
                 fun hnil hq => tryCommit_inv procFuel q m.round hnil hq⟩) h1
    exact cinv_bind (fun q => q.tryTimeoutPrecommitUponSufficientPrecommits)
      (fun q => cinv_of_pred (pred_tryTimeoutPrecommit q)) h2
  · dsimp only
    exact ⟨insertPrecommit_collab p m, fun _ hp => insertPrecommit_inv p m hp⟩

theorem onTimeoutPropose_cinv (p : Process) (height : Height) (round : Round) :
    CInv p (p.OnTimeoutPropose height round).1 := by
  unfold Process.OnTimeoutPropose
  split
  · dsimp only
    exact cinv_of_pred ((coreA procFuel).2.2.2.2.1 p)
  · exact ⟨collab_refl p, fun _ hp => hp⟩

theorem onTimeoutPrevote_cinv (p : Process) (height : Height) (round : Round) :
    CInv p (p.OnTimeoutPrevote height round).1 := by
  unfold Process.OnTimeoutPrevote
  split
  · dsimp only
    exact cinv_of_pred ((coreA procFuel).2.2.2.2.2 p)
  · exact ⟨collab_refl p, fun _ hp => hp⟩

theorem onTimeoutPrecommit_cinv (p : Process) (height : Height) (round : Round) :
    CInv p (p.OnTimeoutPrecommit height round).1 := by
  unfold Process.OnTimeoutPrecommit
  split
  · rename_i hc
    refine ⟨(startRound_coreFrame procFuel p (round + 1)).collab, fun hnil hp => ?_⟩
    refine startRound_inv procFuel p (round + 1) hnil hp ?_
    have h0 : (0 : Int) ≤ p.CurrentRound := hp.2.1
    have h1 : round = p.CurrentRound := hc.2
    rw [h1]
    exact le_trans h0 (le_of_lt (lt_add_one _))
  · exact ⟨collab_refl p, fun _ hp => hp⟩

/-! ## Concrete states used by witnesses and counterexamples -/

/-- A base Process at height 1, round 0, step Proposing: the scheduled
proposer of every round is participant 0, every value is valid, the
process itself is participant 9, `f = 1`. -/
def cexBase : Process :=
  { schedule := fun _ _ => 0
    proposer := fun _ _ => 7
    validator := fun _ => true
    ProposeLogs := fun _ => none
    PrevoteLogs := fun _ => []
    PrecommitLogs := fun _ => []
    F := 1
    OnceFlags := fun _ => 0
    Whoami := 9
    CurrentHeight := 1
    CurrentRound := 0
    CurrentStep := Step.proposing
    LockedValue := NilValue
    LockedRound := InvalidRound
    ValidValue := NilValue
    ValidRound := InvalidRound }

/-- The Timer.TimeoutPrevote requests among a list of outputs. -/
def timeoutPrevoteCalls (outs : List Output) : List Output :=
  outs.filter fun o =>
    match o with
    | Output.timeoutPrevote _ _ => true
    | _ => false

/-- The Committer.Commit invocations among a list of outputs. -/
def commitCalls (outs : List Output) : List Output :=
  outs.filter fun o =>
    match o with
    | Output.commit _ _ => true
    | _ => false

/-- C9: Calling `OnTimeoutPropose(h, r)`, `OnTimeoutPrevote(h, r)`, or
`OnTimeoutPrecommit(h, r)` with `h ≠ currentHeight` or `r ≠ currentRound`
(or, for the first two, with `currentStep` different from Proposing
resp. Prevoting) leaves every field of the process state unchanged and
causes no broadcast, timer request, commit, or catcher invocation. -/
theorem c9_theorem (p : Process) (height : Height) (round : Round) :
    (height ≠ p.CurrentHeight ∨ round ≠ p.CurrentRound ∨ p.CurrentStep ≠ Step.proposing →
      p.OnTimeoutPropose height round = (p, [])) ∧
    (height ≠ p.CurrentHeight ∨ round ≠ p.CurrentRound ∨ p.CurrentStep ≠ Step.prevoting →
      p.OnTimeoutPrevote height round = (p, [])) ∧
    (height ≠ p.CurrentHeight ∨ round ≠ p.CurrentRound →
      p.OnTimeoutPrecommit height round = (p, [])) := by
  refine ⟨fun hd => ?_, fun hd => ?_, fun hd => ?_⟩
  · have hc : ¬(height = p.CurrentHeight ∧ round = p.CurrentRound ∧
        p.CurrentStep = Step.proposing) := by
      intro hc
      rcases hd with h | h | h
      · exact h hc.1
      · exact h hc.2.1
      · exact h hc.2.2
    unfold Process.OnTimeoutPropose
    rw [if_neg hc]
  · have hc : ¬(height = p.CurrentHeight ∧ round = p.CurrentRound ∧
        p.CurrentStep = Step.prevoting) := by
      intro hc
      rcases hd with h | h | h
      · exact h hc.1
      · exact h hc.2.1
      · exact h hc.2.2
    unfold Process.OnTimeoutPrevote
    rw [if_neg hc]
  · have hc : ¬(height = p.CurrentHeight ∧ round = p.CurrentRound) := by
      intro hc
      rcases hd with h | h
      · exact h hc.1
      · exact h hc.2
    unfold Process.OnTimeoutPrecommit
    rw [if_neg hc]

/-- C9 witness: a timeout for height 2 at a process on height 1 is ignored. -/
theorem c9_witness :
    ((2 : Height) ≠ cexBase.CurrentHeight ∨ (0 : Round) ≠ cexBase.CurrentRound ∨
      cexBase.CurrentStep ≠ Step.proposing) ∧
    cexBase.OnTimeoutPropose 2 0 = (cexBase, []) :=
  ⟨by decide, (c9_theorem cexBase 2 0).1 (by decide)⟩

/-- C6: For every round `r`, `StartRound(r)` sets `currentRound` to `r` and
`currentStep` to Proposing (first conjunct, the definitional
factorisation); if the schedule names this process it broadcasts a Propose
whose value is `validValue` when non-nil and `Proposer.propose` otherwise,
carrying `validRound`; otherwise it requests `Timer.timeoutPropose` and
broadcasts no Propose. -/
theorem c6_theorem (fuel : Nat) (p : Process) (r : Round) :
    Process.StartRound (fuel + 2) p r =
      Process.startRoundRest (fuel + 1)
        { p with CurrentRound := r, CurrentStep := Step.proposing } ∧
    (Process.StartRound (fuel + 2) p r).1.CurrentRound = r ∧
    (p.schedule p.CurrentHeight r = p.Whoami →
      (Process.StartRound (fuel + 2) p r).2.head? =
        some (Output.broadcastPropose p.CurrentHeight r
          (if p.ValidValue = NilValue then p.proposer p.CurrentHeight r else p.ValidValue)
          p.ValidRound)) ∧
    (p.schedule p.CurrentHeight r ≠ p.Whoami →
      (Process.StartRound (fuel + 2) p r).2.head? =
        some (Output.timeoutPropose p.CurrentHeight r) ∧
      ∀ h r' v vr, Output.broadcastPropose h r' v vr ∉ (Process.StartRound (fuel + 2) p r).2) := by
  refine ⟨rfl, startRound_round _ p r, fun hsch => ?_, fun hsch => ?_⟩
  · show (Process.startRoundRest (fuel + 1)
      { p with CurrentRound := r, CurrentStep := Step.proposing }).2.head? = _
    simp only [Process.startRoundRest]
    rw [if_neg (not_not_intro hsch.symm)]
    rfl
  · constructor
    · show (Process.startRoundRest (fuel + 1)
        { p with CurrentRound := r, CurrentStep := Step.proposing }).2.head? = _
      simp only [Process.startRoundRest]
      rw [if_pos (Ne.symm hsch)]
      rfl
    · intro h r' v vr hm
      have hm2 : Output.broadcastPropose h r' v vr ∈ (Process.startRoundRest (fuel + 1)
          { p with CurrentRound := r, CurrentStep := Step.proposing }).2 := hm
      simp only [Process.startRoundRest] at hm2
      rw [if_pos (Ne.symm hsch)] at hm2
      rcases List.mem_cons.1 hm2 with hm2 | hm2
      · exact Output.noConfusion hm2
      · exact (startRoundDefer_pred fuel _).2.2.1 _ hm2 h r' v vr rfl

/-- C6 witness: at a state where this process is the scheduled proposer,
`StartRound(0)` broadcasts a Propose carrying the Proposer value (the valid
value being nil) and the invalid valid-round. -/
theorem c6_witness :
    ({ cexBase with Whoami := 0 } : Process).schedule
        ({ cexBase with Whoami := 0 } : Process).CurrentHeight 0 =
      ({ cexBase with Whoami := 0 } : Process).Whoami ∧
    (Process.StartRound 22 { cexBase with Whoami := 0 } 0).2.head? =
      some (Output.broadcastPropose 1 0 7 InvalidRound) :=
  ⟨by decide, (c6_theorem 20 { cexBase with Whoami := 0 } 0).2.2.1 (by decide)⟩

/-- Scenario S6 state: round 2, locked on value 5 at round 1, a Propose
for value 7 with no valid round stored at round 2. -/
def s6state : Process :=
  { cexBase with
      CurrentRound := 2
      LockedValue := 5
      LockedRound := 1
      ProposeLogs := fun r => if r = 2 then some ⟨1, 2, 0, 7, -1⟩ else none }

/-- C2: In step Proposing at the current round, with a stored Propose
carrying no valid round, the process broadcasts a Prevote for the propose
value when unlocked or locked on that value and a nil Prevote otherwise,
and in both cases steps to Prevoting (the continuation is
`stepToPrevoting`, whose re-evaluations can advance further but never back
to Proposing). -/
theorem c2_theorem (fuel : Nat) (p : Process) (pr : Propose)
    (hstep : p.CurrentStep = Step.proposing)
    (hlog : p.ProposeLogs p.CurrentRound = some pr)
    (hvr : pr.validRound = InvalidRound) :
    Process.tryPrevoteUponPropose (fuel + 2) p =
      ((Process.stepToPrevoting (fuel + 1) p).1,
        (if p.LockedRound = InvalidRound ∨ p.LockedValue = pr.value then
           Output.broadcastPrevote p.CurrentHeight p.CurrentRound pr.value
         else
           Output.broadcastPrevote p.CurrentHeight p.CurrentRound NilValue)
          :: (Process.stepToPrevoting (fuel + 1) p).2) ∧
    (Process.tryPrevoteUponPropose (fuel + 2) p).1.CurrentStep ≠ Step.proposing := by
  have hne : (Process.stepToPrevoting (fuel + 1) p).1.CurrentStep ≠ Step.proposing := by
    simp only [Process.stepToPrevoting]
    have h0 : ({ p with CurrentStep := Step.prevoting } : Process).CurrentStep ≠
        Step.proposing := by
      intro hc
      exact Step.noConfusion hc
    exact stepNe_trans (stepNe_trans (stepNe_trans h0 ((coreA fuel).2.2.1 _).2.1)
      ((coreA fuel).2.2.2.1 _).2.1) (pred_tryTimeoutPrevote _).2.1
  have heq : Process.tryPrevoteUponPropose (fuel + 2) p =
      ((Process.stepToPrevoting (fuel + 1) p).1,
        (if p.LockedRound = InvalidRound ∨ p.LockedValue = pr.value then
           Output.broadcastPrevote p.CurrentHeight p.CurrentRound pr.value
         else
           Output.broadcastPrevote p.CurrentHeight p.CurrentRound NilValue)
          :: (Process.stepToPrevoting (fuel + 1) p).2) := by
    simp only [Process.tryPrevoteUponPropose]
    rw [if_neg (not_not_intro hstep), hlog]
    dsimp only
    rw [if_neg (not_not_intro hvr)]
  refine ⟨heq, ?_⟩
  rw [heq]
  exact hne

/-- C2 witness: scenario S6, the process at `s6state` (locked on 5,
receiving a Propose for 7 with no valid round) prevotes nil and leaves the
Proposing step. -/
theorem c2_witness :
    (s6state.CurrentStep = Step.proposing ∧
      (Process.tryPrevoteUponPropose 22 s6state).2.head? =
        some (Output.broadcastPrevote 1 2 NilValue)) ∧
    (Process.tryPrevoteUponPropose 22 s6state).1.CurrentStep ≠ Step.proposing :=
  ⟨⟨by decide, by decide⟩,
   (c2_theorem 20 s6state ⟨1, 2, 0, 7, -1⟩ (by decide) (by decide) (by decide)).2⟩

/-- State with four precommits for value 5 stored at round 0 (`2f+2` with
`f = 1`). -/
def c1cexState : Process :=
  { cexBase with
      PrecommitLogs := fun r =>
        if r = 0 then [(1, ⟨1, 0, 1, 5⟩), (2, ⟨1, 0, 2, 5⟩),
                       (3, ⟨1, 0, 3, 5⟩), (4, ⟨1, 0, 4, 5⟩)] else [] }

/-- C1 counterexample: with four matching precommits already stored
(`2f+2 ≥ 2f+1` for `f = 1`), delivering the Propose leaves the commit
condition of the claim satisfied, yet no `Committer.commit` call is made
and the height does not advance: the code requires the matching precommit
count to be exactly `2f+1`. -/
theorem c1_counterexample :
    c1cexState.F = 1 ∧
    (c1cexState.deliverPropose ⟨1, 0, 0, 5, -1⟩).1.ProposeLogs 0 =
      some ⟨1, 0, 0, 5, -1⟩ ∧
    ((c1cexState.deliverPropose ⟨1, 0, 0, 5, -1⟩).1.PrecommitLogs 0).countP
      (fun e => e.2.value == 5) = 4 ∧
    2 * (c1cexState.deliverPropose ⟨1, 0, 0, 5, -1⟩).1.F + 1 ≤ 4 ∧
    (c1cexState.deliverPropose ⟨1, 0, 0, 5, -1⟩).1.CurrentHeight = 1 ∧
    commitCalls (c1cexState.deliverPropose ⟨1, 0, 0, 5, -1⟩).2 = [] := by
  refine ⟨by decide, by decide, by decide, by decide, by decide, by decide⟩

/-- C1 (amended): when a Propose is stored at round `r` and the precommits
at `r` matching its value number exactly `2f+1`, the process invokes
`Committer.commit(currentHeight, v)`, increments the height, empties the
three message logs and the once-flags, resets the lock/valid fields via
`Reset`, and executes `StartRound(0)`. -/
theorem c1_theorem (fuel : Nat) (p : Process) (r : Round) (pr : Propose)
    (hlog : p.ProposeLogs r = some pr)
    (hcnt : (p.PrecommitLogs r).countP (fun e => e.2.value == pr.value) = 2 * p.F + 1) :
    Process.tryCommitUponSufficientPrecommits (fuel + 1) p r =
      ((Process.StartRound fuel
          (Process.Reset
            { p with
                CurrentHeight := p.CurrentHeight + 1
                ProposeLogs := fun _ => none
                PrevoteLogs := fun _ => []
                PrecommitLogs := fun _ => []
                OnceFlags := fun _ => 0 }) 0).1,
       Output.commit p.CurrentHeight pr.value ::
         (Process.StartRound fuel
           (Process.Reset
             { p with
                 CurrentHeight := p.CurrentHeight + 1
                 ProposeLogs := fun _ => none
                 PrevoteLogs := fun _ => []
                 PrecommitLogs := fun _ => []
                 OnceFlags := fun _ => 0 }) 0).2) ∧
    (Process.tryCommitUponSufficientPrecommits (fuel + 1) p r).1.CurrentHeight =
      p.CurrentHeight + 1 ∧
    (Process.tryCommitUponSufficientPrecommits (fuel + 1) p r).2.head? =
      some (Output.commit p.CurrentHeight pr.value) := by
  have heq : Process.tryCommitUponSufficientPrecommits (fuel + 1) p r =
      ((Process.StartRound fuel
          (Process.Reset
            { p with
                CurrentHeight := p.CurrentHeight + 1
                ProposeLogs := fun _ => none
                PrevoteLogs := fun _ => []
                PrecommitLogs := fun _ => []
                OnceFlags := fun _ => 0 }) 0).1,
       Output.commit p.CurrentHeight pr.value ::
         (Process.StartRound fuel
           (Process.Reset
             { p with
                 CurrentHeight := p.CurrentHeight + 1
                 ProposeLogs := fun _ => none
                 PrevoteLogs := fun _ => []
                 PrecommitLogs := fun _ => []
                 OnceFlags := fun _ => 0 }) 0).2) := by
    simp only [Process.tryCommitUponSufficientPrecommits]
    rw [hlog]
    dsimp only
    rw [if_pos hcnt]
  refine ⟨heq, ?_, ?_⟩
  · rw [heq]
    dsimp only
    rw [startRound_height]
    rfl
  · rw [heq]
    rfl

/-- State with the Propose for value 5 stored at round 0 and exactly
`2f+1 = 3` matching precommits. -/
def c1wState : Process :=
  { cexBase with
      ProposeLogs := fun r => if r = 0 then some ⟨1, 0, 0, 5, -1⟩ else none
      PrecommitLogs := fun r =>
        if r = 0 then [(1, ⟨1, 0, 1, 5⟩), (2, ⟨1, 0, 2, 5⟩), (3, ⟨1, 0, 3, 5⟩)]
        else [] }

/-- C1 witness: with exactly `2f+1 = 3` matching precommits and the
Propose stored, the commit fires, the height advances and the commit call
is emitted. -/
theorem c1_witness :
    (c1wState.ProposeLogs 0 = some ⟨1, 0, 0, 5, -1⟩ ∧
      (Process.tryCommitUponSufficientPrecommits 21 c1wState 0).1.CurrentHeight = 2) ∧
    (Process.tryCommitUponSufficientPrecommits 21 c1wState 0).2.head? =
      some (Output.commit 1 5) :=
  ⟨⟨by decide, by decide⟩,
   (c1_theorem 20 c1wState 0 ⟨1, 0, 0, 5, -1⟩ (by decide) (by decide)).2.2⟩

/-- State at round 0 with three prevotes for value 3 stored at round 5. -/
def c5cexState : Process :=
  { cexBase with
      PrevoteLogs := fun r =>
        if r = 5 then [(1, ⟨1, 5, 1, 3⟩), (2, ⟨1, 5, 2, 3⟩), (3, ⟨1, 5, 3, 3⟩)]
        else [] }

/-- C5 counterexample: a process at round 0 with `f = 1` and three prevotes
stored at round 5 (count `3 ≥ f+1`) receives a fourth prevote at round 5
and still does not start round 5: the skip condition requires the count to
be exactly `f+1`. -/
theorem c5_counterexample :
    c5cexState.CurrentRound = 0 ∧
    c5cexState.F + 1 ≤ 3 ∧
    ((c5cexState.deliverPrevote ⟨1, 5, 4, 3⟩).1.PrevoteLogs 5).length = 4 ∧
    (c5cexState.deliverPrevote ⟨1, 5, 4, 3⟩).1.CurrentRound = 0 := by
  refine ⟨by decide, by decide, by decide, by decide⟩

/-- C5 (amended): for every round `r` strictly greater than the current
round, when the count of messages stored at `r` (a propose counting as one,
plus the prevote and precommit senders) equals exactly `f+1`, the process
runs `StartRound(r)`, which sets `currentRound` to `r` and `currentStep` to
Proposing; because accepted messages are inserted one at a time and the
skip is retried on each, the skip fires at the instant the count reaches
`f+1`. -/
theorem c5_theorem (fuel : Nat) (p : Process) (r : Round)
    (hlt : p.CurrentRound < r)
    (hcnt : (if (p.ProposeLogs r).isSome then 1 else 0) + (p.PrevoteLogs r).length +
      (p.PrecommitLogs r).length = p.F + 1) :
    Process.trySkipToFutureRound (fuel + 2) p r = Process.StartRound (fuel + 1) p r ∧
    (Process.trySkipToFutureRound (fuel + 2) p r).1.CurrentRound = r ∧
    Process.StartRound (fuel + 1) p r =
      Process.startRoundRest fuel
        { p with CurrentRound := r, CurrentStep := Step.proposing } := by
  have heq : Process.trySkipToFutureRound (fuel + 2) p r =
      Process.StartRound (fuel + 1) p r := by
    simp only [Process.trySkipToFutureRound]
    rw [if_neg (not_le.mpr hlt), if_pos hcnt]
  refine ⟨heq, ?_, rfl⟩
  rw [heq]
  exact startRound_round fuel p r

/-- State at round 0 with prevotes at round 5 from senders 10 and 11
(count `f+1 = 2`). -/
def s4state : Process :=
  { cexBase with
      PrevoteLogs := fun r =>
        if r = 5 then [(10, ⟨1, 5, 10, 3⟩), (11, ⟨1, 5, 11, 3⟩)] else [] }

/-- C5 witness: scenario S4, a process at round 0 with `f = 1` receives
prevotes at round 5 from two distinct senders and starts round 5 (shown
both as the two-delivery trace and through the amended skip theorem). -/
theorem c5_witness :
    (s4state.CurrentRound < 5 ∧
      (cexBase.deliverPrevote ⟨1, 5, 10, 3⟩).1.CurrentRound = 0 ∧
      ((cexBase.deliverPrevote ⟨1, 5, 10, 3⟩).1.deliverPrevote
        ⟨1, 5, 11, 3⟩).1.CurrentRound = 5) ∧
    (Process.trySkipToFutureRound 22 s4state 5).1.CurrentRound = 5 :=
  ⟨⟨by decide, by decide, by decide⟩,
   (c5_theorem 20 s4state 5 (by decide) (by decide)).2.1⟩

/-- C3 (amended): full characterisation of `insertPropose`.  A Propose at
the wrong height is dropped; with an identical entry stored it is dropped
with no report; with a differing entry stored `catchDoublePropose(new,
old)` is invoked and the first-seen entry retained, regardless of the new
sender or of validity; with no entry stored it is accepted exactly when the
sender is the scheduled proposer and the value is valid, and otherwise
rejected without any catcher invocation. -/
theorem c3_theorem (p : Process) (m : Propose) :
    (m.height ≠ p.CurrentHeight → p.insertPropose m = (p, false, [])) ∧
    (∀ ex, m.height = p.CurrentHeight → p.ProposeLogs m.round = some ex → m = ex →
      p.insertPropose m = (p, false, [])) ∧
    (∀ ex, m.height = p.CurrentHeight → p.ProposeLogs m.round = some ex → m ≠ ex →
      p.insertPropose m = (p, false, [Output.catchDoublePropose m ex]) ∧
      (p.insertPropose m).1.ProposeLogs m.round = some ex) ∧
    (m.height = p.CurrentHeight → p.ProposeLogs m.round = none →
      p.schedule m.height m.round = m.sender → p.validator m.value = true →
      p.insertPropose m =
        ({ p with ProposeLogs := fun r => if r = m.round then some m else p.ProposeLogs r },
         true, [])) ∧
    (m.height = p.CurrentHeight → p.ProposeLogs m.round = none →
      p.schedule m.height m.round ≠ m.sender ∨ p.validator m.value = false →
      p.insertPropose m = (p, false, [])) := by
  refine ⟨fun hh => insertPropose_height_ne p m hh, ?_, ?_, ?_, ?_⟩
  · intro ex hh hl hme
    subst hme
    exact insertPropose_dup p m hh hl
  · intro ex hh hl hne
    have heq : p.insertPropose m = (p, false, [Output.catchDoublePropose m ex]) := by
      unfold Process.insertPropose
      rw [if_neg (not_not_intro hh), hl]
      dsimp only
      rw [if_pos hne]
    refine ⟨heq, ?_⟩
    rw [heq]
    exact hl
  · intro hh hl hs hv
    unfold Process.insertPropose
    rw [if_neg (not_not_intro hh), hl]
    dsimp only
    rw [if_neg (not_not_intro hs), if_neg (not_not_intro hv)]
  · intro hh hl hrej
    unfold Process.insertPropose
    rw [if_neg (not_not_intro hh), hl]
    dsimp only
    rcases hrej with hs | hv
    · rw [if_pos hs]
    · by_cases hs2 : p.schedule m.height m.round = m.sender
      · have hnv : ¬(p.validator m.value = true) := by
          intro hc
          rw [hv] at hc
          exact Bool.noConfusion hc
        rw [if_neg (not_not_intro hs2), if_pos hnv]
      · rw [if_pos hs2]

/-- State with the Propose of the scheduled proposer 0 stored at round 0. -/
def c3cexState : Process :=
  { cexBase with ProposeLogs := fun r => if r = 0 then some ⟨1, 0, 0, 5, -1⟩ else none }

/-- C3 counterexample: a differing Propose from sender 1, who is neither
the stored Propose's sender nor the scheduled proposer of round 0, still
triggers `catchDoublePropose(new, old)` (the first-seen entry being
retained): the catcher is not reserved to two Proposes from the same
participant, and a Propose from a non-scheduled sender is not always
rejected silently. -/
theorem c3_counterexample :
    (⟨1, 0, 1, 6, -1⟩ : Propose).sender ≠
      c3cexState.schedule (1 : Height) (0 : Round) ∧
    (⟨1, 0, 1, 6, -1⟩ : Propose).sender ≠ (⟨1, 0, 0, 5, -1⟩ : Propose).sender ∧
    (c3cexState.insertPropose ⟨1, 0, 1, 6, -1⟩).2.2 =
      [Output.catchDoublePropose ⟨1, 0, 1, 6, -1⟩ ⟨1, 0, 0, 5, -1⟩] ∧
    (c3cexState.insertPropose ⟨1, 0, 1, 6, -1⟩).1.ProposeLogs 0 =
      some ⟨1, 0, 0, 5, -1⟩ := by
  refine ⟨by decide, by decide, by decide, by decide⟩

/-- C3 witness: at the same state, an identical re-delivery of the stored
Propose is dropped with no report, by the amended characterisation. -/
theorem c3_witness :
    ((⟨1, 0, 0, 5, -1⟩ : Propose).height = c3cexState.CurrentHeight ∧
      c3cexState.ProposeLogs 0 = some ⟨1, 0, 0, 5, -1⟩) ∧
    c3cexState.insertPropose ⟨1, 0, 0, 5, -1⟩ = (c3cexState, false, []) :=
  ⟨⟨by decide, by decide⟩,
   (c3_theorem c3cexState ⟨1, 0, 0, 5, -1⟩).2.1 ⟨1, 0, 0, 5, -1⟩ (by decide) (by decide) rfl⟩

/-- The prevote-timeout trace of claim C4: the Propose of the scheduled
proposer arrives first (the process prevotes and enters Prevoting, latching
the once-flag with zero prevotes in the log), then `2f+1 = 3` prevotes with
mixed values arrive. -/
def c4s1 : Process × List Output := cexBase.deliverPropose ⟨1, 0, 0, 5, -1⟩

def c4s2 : Process × List Output := c4s1.1.deliverPrevote ⟨1, 0, 0, 5⟩

def c4s3 : Process × List Output := c4s2.1.deliverPrevote ⟨1, 0, 1, 6⟩

def c4s4 : Process × List Output := c4s3.1.deliverPrevote ⟨1, 0, 2, 0⟩

/-- C4 (code bug): after the trace, the process is in step Prevoting with
exactly `2f+1` prevotes in the current round's log, yet no
`Timer.timeoutPrevote` request was ever made — the once-flag was latched
when the step entered Prevoting with too few prevotes, because
`tryTimeoutPrevoteUponSufficientPrevotes` sets its once-flag even when it
does not request the timeout (unlike the precommit analogue, which sets
the flag only upon requesting). -/
theorem c4_theorem :
    c4s1.1.CurrentStep = Step.prevoting ∧
    (c4s1.1.PrevoteLogs 0).length = 0 ∧
    c4s1.1.checkOnceFlag 0 OnceFlagTimeoutPrevoteUponSufficientPrevotes = true ∧
    c4s4.1.CurrentStep = Step.prevoting ∧
    c4s4.1.CurrentRound = 0 ∧
    (c4s4.1.PrevoteLogs 0).length = 2 * c4s4.1.F + 1 ∧
    timeoutPrevoteCalls (c4s1.2 ++ c4s2.2 ++ c4s3.2 ++ c4s4.2) = [] := by
  refine ⟨by decide, by decide, by decide, by decide, by decide, by decide, by decide⟩

theorem deliverPropose_reject_eq (p : Process) (m : Propose)
    (hb : (p.insertPropose m).2.1 = false) :
    p.deliverPropose m = (p, (p.insertPropose m).2.2) := by
  have hst := insertPropose_reject p m hb
  simp only [Process.deliverPropose, hb]
  rw [if_neg Bool.false_ne_true, hst]

theorem deliverPrevote_reject_eq (p : Process) (m : Prevote)
    (hb : (p.insertPrevote m).2.1 = false) :
    p.deliverPrevote m = (p, (p.insertPrevote m).2.2) := by
  have hst := insertPrevote_reject p m hb
  simp only [Process.deliverPrevote, hb]
  rw [if_neg Bool.false_ne_true, hst]

theorem deliverPrecommit_reject_eq (p : Process) (m : Precommit)
    (hb : (p.insertPrecommit m).2.1 = false) :
    p.deliverPrecommit m = (p, (p.insertPrecommit m).2.2) := by
  have hst := insertPrecommit_reject p m hb
  simp only [Process.deliverPrecommit, hb]
  rw [if_neg Bool.false_ne_true, hst]

theorem deliverPropose_of_reject (q : Process) (m : Propose)
    (hq : q.insertPropose m = (q, false, [])) : q.deliverPropose m = (q, []) := by
  have hb : (q.insertPropose m).2.1 = false := by rw [hq]
  rw [deliverPropose_reject_eq q m hb, hq]

theorem deliverPrevote_of_reject (q : Process) (m : Prevote)
    (hq : q.insertPrevote m = (q, false, [])) : q.deliverPrevote m = (q, []) := by
  have hb : (q.insertPrevote m).2.1 = false := by rw [hq]
  rw [deliverPrevote_reject_eq q m hb, hq]

theorem deliverPrecommit_of_reject (q : Process) (m : Precommit)
    (hq : q.insertPrecommit m = (q, false, [])) : q.deliverPrecommit m = (q, []) := by
  have hb : (q.insertPrecommit m).2.1 = false := by rw [hq]
  rw [deliverPrecommit_reject_eq q m hb, hq]

/-- C7: lock coherence. In every state satisfying the reachability
invariant (coherence, non-negative current round, only validator-approved
Proposes logged) of a process whose validator rejects the nil value,
every event handler — message ingestion, the three timeouts, `Start`,
`StartRound` for a non-negative round, and the commit rule — yields a
state in which `lockedRound = InvalidRound ↔ lockedValue = Nil` and
`validRound = InvalidRound ↔ validValue = Nil`. -/
theorem c7_theorem (p : Process) (hnil : p.validator NilValue = false) (hp : InvL p) :
    LockOK p ∧
    (∀ m : Propose, LockOK (p.deliverPropose m).1) ∧
    (∀ m : Prevote, LockOK (p.deliverPrevote m).1) ∧
    (∀ m : Precommit, LockOK (p.deliverPrecommit m).1) ∧
    (∀ h r, LockOK (p.OnTimeoutPropose h r).1) ∧
    (∀ h r, LockOK (p.OnTimeoutPrevote h r).1) ∧
    (∀ h r, LockOK (p.OnTimeoutPrecommit h r).1) ∧
    LockOK p.Start.1 ∧
    (∀ r, 0 ≤ r → ∀ fuel, LockOK (Process.StartRound fuel p r).1) ∧
    (∀ r fuel, LockOK (Process.tryCommitUponSufficientPrecommits fuel p r).1) := by
  refine ⟨hp.1, fun m => ?_, fun m => ?_, fun m => ?_, fun h r => ?_, fun h r => ?_,
    fun h r => ?_, ?_, fun r hr fuel => ?_, fun r fuel => ?_⟩
  · exact ((deliverPropose_cinv p m).2 hnil hp).1
  · exact ((deliverPrevote_cinv p m).2 hnil hp).1
  · exact ((deliverPrecommit_cinv p m).2 hnil hp).1
  · exact ((onTimeoutPropose_cinv p h r).2 hnil hp).1
  · exact ((onTimeoutPrevote_cinv p h r).2 hnil hp).1
  · exact ((onTimeoutPrecommit_cinv p h r).2 hnil hp).1
  · exact (startRound_inv procFuel p 0 hnil hp le_rfl).1
  · exact (startRound_inv fuel p r hnil hp hr).1
  · exact (tryCommit_inv fuel p r hnil hp).1

/-- A base state whose validator rejects the nil value. -/
def c7wState : Process := { cexBase with validator := fun v => v != 0 }

/-- C7 witness: at a concrete coherent state whose validator rejects nil,
delivering a Propose preserves lock coherence. -/
theorem c7_witness :
    (c7wState.validator NilValue = false ∧
      (c7wState.LockedRound = InvalidRound ↔ c7wState.LockedValue = NilValue)) ∧
    LockOK (c7wState.deliverPropose ⟨1, 0, 0, 5, -1⟩).1 :=
  ⟨⟨by decide, by decide⟩,
   (c7_theorem c7wState (by decide)
     ⟨⟨by decide, by decide⟩, by decide, fun r pr hc => Option.noConfusion hc⟩).2.1
     ⟨1, 0, 0, 5, -1⟩⟩

/-- C8: delivering the same Propose, Prevote, or Precommit twice yields
the same final state as delivering it once, and the second delivery
contributes no broadcast, timer request, or commit (Catcher reports, which
the claim does not cover, are filtered by `effects`). -/
theorem c8_theorem (p : Process) :
    (∀ m : Propose,
      ((p.deliverPropose m).1.deliverPropose m).1 = (p.deliverPropose m).1 ∧
      effects ((p.deliverPropose m).2 ++ ((p.deliverPropose m).1.deliverPropose m).2) =
        effects (p.deliverPropose m).2) ∧
    (∀ m : Prevote,
      ((p.deliverPrevote m).1.deliverPrevote m).1 = (p.deliverPrevote m).1 ∧
      effects ((p.deliverPrevote m).2 ++ ((p.deliverPrevote m).1.deliverPrevote m).2) =
        effects (p.deliverPrevote m).2) ∧
    (∀ m : Precommit,
      ((p.deliverPrecommit m).1.deliverPrecommit m).1 = (p.deliverPrecommit m).1 ∧
      effects ((p.deliverPrecommit m).2 ++ ((p.deliverPrecommit m).1.deliverPrecommit m).2) =
        effects (p.deliverPrecommit m).2) := by
  refine ⟨fun m => ?_, fun m => ?_, fun m => ?_⟩
  · cases hb : (p.insertPropose m).2.1 with
    | false =>
      have hd := deliverPropose_reject_eq p m hb
      rw [hd]
      dsimp only
      rw [hd]
      refine ⟨rfl, ?_⟩
      dsimp only
      rw [effects_append, insertPropose_effects p m]
      rfl
    | true =>
      obtain ⟨hh, hH, hL⟩ := insertPropose_accept p m hb
      have hrej : (p.deliverPropose m).1.insertPropose m =
          ((p.deliverPropose m).1, false, []) := by
        rcases deliverPropose_hl p m with ⟨h1, h2, _, _⟩ | hlt
        · refine insertPropose_dup _ m ?_ ?_
          · rw [h1, hH]
            exact hh
          · rw [h2]
            exact hL
        · refine insertPropose_height_ne _ m ?_
          rw [hH] at hlt
          intro hc
          rw [hh] at hc
          exact absurd hc (ne_of_lt hlt)
      have h2nd := deliverPropose_of_reject _ m hrej
      rw [h2nd]
      refine ⟨rfl, ?_⟩
      dsimp only
      rw [List.append_nil]
  · cases hb : (p.insertPrevote m).2.1 with
    | false =>
      have hd := deliverPrevote_reject_eq p m hb
      rw [hd]
      dsimp only
      rw [hd]
      refine ⟨rfl, ?_⟩
      dsimp only
      rw [effects_append, insertPrevote_effects p m]
      rfl
    | true =>
      obtain ⟨hh, hH, hL⟩ := insertPrevote_accept p m hb
      have hrej : (p.deliverPrevote m).1.insertPrevote m =
          ((p.deliverPrevote m).1, false, []) := by
        rcases deliverPrevote_hl p m with ⟨h1, _, h3, _⟩ | hlt
        · refine insertPrevote_dup _ m ?_ ?_
          · rw [h1, hH]
            exact hh
          · rw [h3]
            exact hL
        · refine insertPrevote_height_ne _ m ?_
          rw [hH] at hlt
          intro hc
          rw [hh] at hc
          exact absurd hc (ne_of_lt hlt)
      have h2nd := deliverPrevote_of_reject _ m hrej
      rw [h2nd]
      refine ⟨rfl, ?_⟩
      dsimp only
      rw [List.append_nil]
  · cases hb : (p.insertPrecommit m).2.1 with
    | false =>
      have hd := deliverPrecommit_reject_eq p m hb
      rw [hd]
      dsimp only
      rw [hd]
      refine ⟨rfl, ?_⟩
      dsimp only
      rw [effects_append, insertPrecommit_effects p m]
      rfl
    | true =>
      obtain ⟨hh, hH, hL⟩ := insertPrecommit_accept p m hb
      have hrej : (p.deliverPrecommit m).1.insertPrecommit m =
          ((p.deliverPrecommit m).1, false, []) := by
        rcases deliverPrecommit_hl p m with ⟨h1, _, _, h4⟩ | hlt
        · refine insertPrecommit_dup _ m ?_ ?_
          · rw [h1, hH]
            exact hh
          · rw [h4]
            exact hL
        · refine insertPrecommit_height_ne _ m ?_
          rw [hH] at hlt
          intro hc
          rw [hh] at hc
          exact absurd hc (ne_of_lt hlt)
      have h2nd := deliverPrecommit_of_reject _ m hrej
      rw [h2nd]
      refine ⟨rfl, ?_⟩
      dsimp only
      rw [List.append_nil]

/-- C10: a Propose is broadcast only for a height and round at which the
process is the scheduled proposer: for every state and every event entry
point, any `BroadcastPropose(h, r, v, vr)` among the emitted calls
satisfies `schedule(h, r) = whoami`. -/
theorem c10_theorem (p : Process) :
    (∀ (m : Propose) h r v vr,
      Output.broadcastPropose h r v vr ∈ (p.deliverPropose m).2 →
        p.schedule h r = p.Whoami) ∧
    (∀ (m : Prevote) h r v vr,
      Output.broadcastPropose h r v vr ∈ (p.deliverPrevote m).2 →
        p.schedule h r = p.Whoami) ∧
    (∀ (m : Precommit) h r v vr,
      Output.broadcastPropose h r v vr ∈ (p.deliverPrecommit m).2 →
        p.schedule h r = p.Whoami) ∧
    (∀ height round h r v vr,
      Output.broadcastPropose h r v vr ∈ (p.OnTimeoutPropose height round).2 →
        p.schedule h r = p.Whoami) ∧
    (∀ height round h r v vr,
      Output.broadcastPropose h r v vr ∈ (p.OnTimeoutPrevote height round).2 →
        p.schedule h r = p.Whoami) ∧
    (∀ height round h r v vr,
      Output.broadcastPropose h r v vr ∈ (p.OnTimeoutPrecommit height round).2 →
        p.schedule h r = p.Whoami) ∧
    (∀ h r v vr,
      Output.broadcastPropose h r v vr ∈ p.Start.2 → p.schedule h r = p.Whoami) ∧
    (∀ round fuel h r v vr,
      Output.broadcastPropose h r v vr ∈ (Process.StartRound fuel p round).2 →
        p.schedule h r = p.Whoami) := by
  refine ⟨fun m => (deliverPropose_bp p m).2, fun m => (deliverPrevote_bp p m).2,
    fun m => (deliverPrecommit_bp p m).2,
    fun height round => onTimeoutPropose_bp p height round,
    fun height round => onTimeoutPrevote_bp p height round,
    fun height round => onTimeoutPrecommit_bp p height round,
    startRound_bpGuard procFuel p 0,
    fun round fuel => startRound_bpGuard fuel p round⟩

/-- C10 witness: a process that is the scheduled proposer at `(1, 0)`
broadcasts a Propose from `Start`, and the guard applies to it. -/
theorem c10_witness :
    Output.broadcastPropose 1 0 7 InvalidRound ∈
      ({ cexBase with Whoami := 0 } : Process).Start.2 ∧
    ({ cexBase with Whoami := 0 } : Process).schedule 1 0 =
      ({ cexBase with Whoami := 0 } : Process).Whoami :=
  ⟨by decide,
   (c10_theorem { cexBase with Whoami := 0 }).2.2.2.2.2.2.1 1 0 7 InvalidRound (by decide)⟩
